import Mathlib

set_option maxRecDepth 100000

/-!
Shallow embedding of the zoneinfo tzfile decoder and its query API
(`src/lib.rs` of the `zoneinfo` crate), together with theorems checking the
specification's claims about it.

Modelling conventions:
* A byte buffer is a `List Nat`; `Cursor` mirrors `std::io::Cursor` over a
  byte slice (buffer plus position).
* `time::Timespec` values in this code base always carry `nsec = 0`
  (every construction is `Timespec::new(t, 0)`), so instants are modelled
  as plain `Int` seconds.
* Fallible Rust paths are `Except Fail`: `Fail.eof` models a
  `byteorder` `UnexpectedEOF` decode error, `Fail.crash` models a Rust
  panic (a failed `unwrap` or an out-of-bounds `Vec` index).
* Rust strings are kept as their UTF-8 byte lists; `isValidUtf8` models the
  check performed by `std::str::from_utf8`.
* `ZoneInfo::new` is modelled for a 64-bit target, where
  `cfg!(target_pointer_width = "64")` holds and the wide body is selected.
* `std::collections::BTreeMap` is modelled as an association list sorted
  strictly by key; `insertSorted` replaces the value on an equal key,
  exactly as `BTreeMap::insert` does.
-/

inductive Fail where
  | eof
  | crash
deriving DecidableEq

instance {ε α : Type} [DecidableEq ε] [DecidableEq α] : DecidableEq (Except ε α) := fun x y =>
  match x, y with
  | .error a, .error b =>
    if h : a = b then .isTrue (by rw [h]) else .isFalse (fun hh => h (by cases hh; rfl))
  | .error _, .ok _ => .isFalse (fun hh => Except.noConfusion hh)
  | .ok _, .error _ => .isFalse (fun hh => Except.noConfusion hh)
  | .ok a, .ok b =>
    if h : a = b then .isTrue (by rw [h]) else .isFalse (fun hh => h (by cases hh; rfl))

structure Cursor where
  buf : List Nat
  pos : Nat
deriving DecidableEq

/-- One `read_u8` call of the `byteorder` crate: exactly one byte or EOF. -/
def readU8 (c : Cursor) : Except Fail (Nat × Cursor) :=
  if c.pos < c.buf.length then
    .ok (c.buf.getD c.pos 0, ⟨c.buf, c.pos + 1⟩)
  else
    .error .eof

/-- An exact `n`-byte read as performed by the `byteorder` integer readers:
fails with EOF when fewer than `n` bytes remain. -/
def readBytesExact (n : Nat) (c : Cursor) : Except Fail (List Nat × Cursor) :=
  if c.pos + n ≤ c.buf.length then
    .ok ((c.buf.drop c.pos).take n, ⟨c.buf, c.pos + n⟩)
  else
    .error .eof

/-- One `std::io::Read::read` call on a `Cursor` into an `n`-byte buffer of
zeroes: copies `min n remaining` bytes and never fails, leaving the unread
suffix of the destination zero-filled. -/
def readPadded (n : Nat) (c : Cursor) : List Nat × Cursor :=
  ((c.buf.drop c.pos).take n ++ List.replicate (n - min n (c.buf.length - c.pos)) 0,
   ⟨c.buf, c.pos + min n (c.buf.length - c.pos)⟩)

/-- Big-endian value of a byte list. -/
def beNat (bs : List Nat) : Nat := bs.foldl (fun a b => a * 256 + b) 0

/-- Two's-complement reading of a `w`-bit big-endian value. -/
def toSigned (w : Nat) (v : Nat) : Int :=
  if v < 2 ^ (w - 1) then (v : Int) else (v : Int) - 2 ^ w

def readU32 (c : Cursor) : Except Fail (Nat × Cursor) :=
  match readBytesExact 4 c with
  | .error e => .error e
  | .ok (bs, c1) => .ok (beNat bs, c1)

def readI32 (c : Cursor) : Except Fail (Int × Cursor) :=
  match readBytesExact 4 c with
  | .error e => .error e
  | .ok (bs, c1) => .ok (toSigned 32 (beNat bs), c1)

def readI64 (c : Cursor) : Except Fail (Int × Cursor) :=
  match readBytesExact 8 c with
  | .error e => .error e
  | .ok (bs, c1) => .ok (toSigned 64 (beNat bs), c1)

def isCont (b : Nat) : Bool := 128 ≤ b && b ≤ 191

/-- State machine for UTF-8 validity, as checked by `std::str::from_utf8`.
State 0 expects a leading byte; states 1-3 expect that many unconstrained
continuation bytes; states 4-7 expect the range-restricted first
continuation byte after a leading `0xE0`, `0xED`, `0xF0`, `0xF4`. -/
def utf8Aux : Nat → List Nat → Bool
  | 0, [] => true
  | _ + 1, [] => false
  | 0, b :: r =>
    if b ≤ 127 then utf8Aux 0 r
    else if b < 194 then false
    else if b ≤ 223 then utf8Aux 1 r
    else if b = 224 then utf8Aux 4 r
    else if b = 237 then utf8Aux 5 r
    else if b ≤ 239 then utf8Aux 2 r
    else if b = 240 then utf8Aux 6 r
    else if b ≤ 243 then utf8Aux 3 r
    else if b = 244 then utf8Aux 7 r
    else false
  | 1, b :: r => isCont b && utf8Aux 0 r
  | 2, b :: r => isCont b && utf8Aux 1 r
  | 3, b :: r => isCont b && utf8Aux 2 r
  | 4, b :: r => (160 ≤ b && b ≤ 191) && utf8Aux 1 r
  | 5, b :: r => (128 ≤ b && b ≤ 159) && utf8Aux 1 r
  | 6, b :: r => (144 ≤ b && b ≤ 191) && utf8Aux 2 r
  | 7, b :: r => (128 ≤ b && b ≤ 143) && utf8Aux 2 r
  | _ + 8, _ :: _ => false

def isValidUtf8 (l : List Nat) : Bool := utf8Aux 0 l

structure TzHeadInner where
  tzh_magic : List Nat
  tzh_version : Nat
  tzh_ttigmtcnt : Nat
  tzh_ttisstdcnt : Nat
  tzh_leapcnt : Nat
  tzh_timecnt : Nat
  tzh_typecnt : Nat
  tzh_charcnt : Nat
deriving DecidableEq

structure TzType where
  ut_offset : Int
  isdst : Bool
  abbreviation : List Nat
deriving DecidableEq

inductive TransitionTimeFlag where
  | Standard
  | WallClock
  | Universal
  | Local
deriving DecidableEq

structure ZoneInfoElement where
  ut_offset : Int
  isdst : Bool
  abbreviation : List Nat
  wall_clock_or_standard : TransitionTimeFlag
  local_or_universal_time : TransitionTimeFlag
deriving DecidableEq

structure ZoneInfoInner where
  header : TzHeadInner
  transision_times : List Int
  transision_types : List Nat
  local_times : List TzType
  leap_seconds_data : List (Int × Int)
  transition_flags1 : List TransitionTimeFlag
  transition_flags2 : List TransitionTimeFlag
deriving DecidableEq

structure ZoneInfo where
  zone_info : ZoneInfoInner
  time_zone_specifier : List Nat
deriving DecidableEq

/-- `TzHead::new`: one plain `read` for the magic (zero-padded, never
failing), the version byte, a 15-byte skip, six big-endian `u32` counts, and
the `from_utf8(&magic).unwrap()` at construction (a panic when the magic
bytes are not valid UTF-8).  Note that the magic is never compared with
the `TZif` tag. -/
def tzHeadNew (c : Cursor) : Except Fail (TzHeadInner × Cursor) :=
  let mc := readPadded 4 c
  match readU8 mc.2 with
  | .error e => .error e
  | .ok (version, c1) =>
  match readU32 ⟨c1.buf, c1.pos + 15⟩ with
  | .error e => .error e
  | .ok (gmtcnt, c2) =>
  match readU32 c2 with
  | .error e => .error e
  | .ok (stdcnt, c3) =>
  match readU32 c3 with
  | .error e => .error e
  | .ok (leapcnt, c4) =>
  match readU32 c4 with
  | .error e => .error e
  | .ok (timecnt, c5) =>
  match readU32 c5 with
  | .error e => .error e
  | .ok (typecnt, c6) =>
  match readU32 c6 with
  | .error e => .error e
  | .ok (charcnt, c7) =>
  if isValidUtf8 mc.1 then
    .ok ({ tzh_magic := mc.1, tzh_version := version, tzh_ttigmtcnt := gmtcnt,
           tzh_ttisstdcnt := stdcnt, tzh_leapcnt := leapcnt,
           tzh_timecnt := timecnt, tzh_typecnt := typecnt,
           tzh_charcnt := charcnt }, c7)
  else .error .crash

/-- `TzHead::decode_transition_times`: `tzh_timecnt` timestamps read through
the width strategy `tc`. -/
def decode_transition_times (tc : Cursor → Except Fail (Int × Cursor)) :
    Nat → Cursor → Except Fail (List Int × Cursor)
  | 0, c => .ok ([], c)
  | n + 1, c =>
    match tc c with
    | .error e => .error e
    | .ok (t, c1) =>
    match decode_transition_times tc n c1 with
    | .error e => .error e
    | .ok (ts, c2) => .ok (t :: ts, c2)

/-- `TzHead::decode_transition_types`: `tzh_timecnt` single bytes. -/
def decode_transition_types : Nat → Cursor → Except Fail (List Nat × Cursor)
  | 0, c => .ok ([], c)
  | n + 1, c =>
    match readU8 c with
    | .error e => .error e
    | .ok (b, c1) =>
    match decode_transition_types n c1 with
    | .error e => .error e
    | .ok (bs, c2) => .ok (b :: bs, c2)

/-- The first loop of `TzHead::decode_local_time_data`: `tzh_typecnt`
records of (4-byte signed offset, dst byte, abbreviation-pool index). -/
def decodeLocalRaw : Nat → Cursor → Except Fail (List (Int × Nat × Nat) × Cursor)
  | 0, c => .ok ([], c)
  | n + 1, c =>
    match readI32 c with
    | .error e => .error e
    | .ok (off, c1) =>
    match readU8 c1 with
    | .error e => .error e
    | .ok (dst, c2) =>
    match readU8 c2 with
    | .error e => .error e
    | .ok (idx, c3) =>
    match decodeLocalRaw n c3 with
    | .error e => .error e
    | .ok (rest, c4) => .ok ((off, dst, idx) :: rest, c4)

/-- Abbreviation extraction: skip to the stored pool offset and take bytes
while they are positive (`take_while(|&c| c > 0)`). -/
def abbrevOf (charbuf : List Nat) (idx : Nat) : List Nat :=
  (charbuf.drop idx).takeWhile (fun b => decide (0 < b))

/-- The second loop of `TzHead::decode_local_time_data`: materialise each
record, panicking (`from_utf8(..).unwrap()`) on an abbreviation that is not
valid UTF-8. -/
def mkTzTypes (charbuf : List Nat) : List (Int × Nat × Nat) → Except Fail (List TzType)
  | [] => .ok []
  | (off, dst, idx) :: rest =>
    if isValidUtf8 (abbrevOf charbuf idx) then
      match mkTzTypes charbuf rest with
      | .error e => .error e
      | .ok ts =>
        .ok ({ ut_offset := off, isdst := dst != 0,
               abbreviation := abbrevOf charbuf idx } :: ts)
    else .error .crash

/-- `TzHead::decode_local_time_data`: the record loop, then one plain `read`
into a `tzh_charcnt`-byte zeroed pool buffer (which zero-fills and never
fails), then abbreviation materialisation. -/
def decode_local_time_data (typecnt charcnt : Nat) (c : Cursor) :
    Except Fail (List TzType × Cursor) :=
  match decodeLocalRaw typecnt c with
  | .error e => .error e
  | .ok (raw, c1) =>
    let pc := readPadded charcnt c1
    match mkTzTypes pc.1 raw with
    | .error e => .error e
    | .ok ts => .ok (ts, pc.2)

/-- `TzHead::decode_leap_second_corrections`: `tzh_leapcnt` pairs of a
timestamp (width strategy) and a 4-byte signed correction. -/
def decode_leap_second_corrections (tc : Cursor → Except Fail (Int × Cursor)) :
    Nat → Cursor → Except Fail (List (Int × Int) × Cursor)
  | 0, c => .ok ([], c)
  | n + 1, c =>
    match tc c with
    | .error e => .error e
    | .ok (t, c1) =>
    match readI32 c1 with
    | .error e => .error e
    | .ok (s, c2) =>
    match decode_leap_second_corrections tc n c2 with
    | .error e => .error e
    | .ok (ls, c3) => .ok ((t, s) :: ls, c3)

/-- `TzHead::decode_transition_flags1`: `tzh_ttisstdcnt` bytes, 0 mapping to
`WallClock` and anything else to `Standard`. -/
def decode_transition_flags1 : Nat → Cursor → Except Fail (List TransitionTimeFlag × Cursor)
  | 0, c => .ok ([], c)
  | n + 1, c =>
    match readU8 c with
    | .error e => .error e
    | .ok (b, c1) =>
    match decode_transition_flags1 n c1 with
    | .error e => .error e
    | .ok (fs, c2) =>
      .ok ((if b = 0 then TransitionTimeFlag.WallClock else TransitionTimeFlag.Standard) :: fs, c2)

/-- `TzHead::decode_transition_flags2`: `tzh_ttigmtcnt` bytes, 0 mapping to
`Local` and anything else to `Universal`. -/
def decode_transition_flags2 : Nat → Cursor → Except Fail (List TransitionTimeFlag × Cursor)
  | 0, c => .ok ([], c)
  | n + 1, c =>
    match readU8 c with
    | .error e => .error e
    | .ok (b, c1) =>
    match decode_transition_flags2 n c1 with
    | .error e => .error e
    | .ok (fs, c2) =>
      .ok ((if b = 0 then TransitionTimeFlag.Local else TransitionTimeFlag.Universal) :: fs, c2)

/-- `std::i64::MIN`. -/
def i64min : Int := -(2 ^ 63)

/-- `read_zone_info`: header, the six table passes in stream order, then the
zero-transition/one-type normalisation that synthesises the sentinel
transition at `std::i64::MIN` with type index 0. -/
def read_zone_info (tc : Cursor → Except Fail (Int × Cursor)) (c : Cursor) :
    Except Fail (ZoneInfoInner × Cursor) :=
  match tzHeadNew c with
  | .error e => .error e
  | .ok (header, c1) =>
  match decode_transition_times tc header.tzh_timecnt c1 with
  | .error e => .error e
  | .ok (tt, c2) =>
  match decode_transition_types header.tzh_timecnt c2 with
  | .error e => .error e
  | .ok (ty, c3) =>
  match decode_local_time_data header.tzh_typecnt header.tzh_charcnt c3 with
  | .error e => .error e
  | .ok (lt, c4) =>
  match decode_leap_second_corrections tc header.tzh_leapcnt c4 with
  | .error e => .error e
  | .ok (ls, c5) =>
  match decode_transition_flags1 header.tzh_ttisstdcnt c5 with
  | .error e => .error e
  | .ok (f1, c6) =>
  match decode_transition_flags2 header.tzh_ttigmtcnt c6 with
  | .error e => .error e
  | .ok (f2, c7) =>
  if tt.length = 0 ∧ lt.length = 1 then
    .ok ({ header := header, transision_times := tt ++ [i64min],
           transision_types := ty ++ [0], local_times := lt,
           leap_seconds_data := ls, transition_flags1 := f1,
           transition_flags2 := f2 }, c7)
  else
    .ok ({ header := header, transision_times := tt, transision_types := ty,
           local_times := lt, leap_seconds_data := ls,
           transition_flags1 := f1, transition_flags2 := f2 }, c7)

def consume_32bit_timestamps (c : Cursor) : Except Fail (Int × Cursor) := readI32 c

def consume_64bit_timestamps (c : Cursor) : Except Fail (Int × Cursor) := readI64 c

/-- `ZoneInfo::new` on an already-loaded buffer, for a 64-bit target: decode
the legacy body, and when the version byte is `'2'` (50) or `'3'` (51)
decode the wide body as well, keep the wide body, and take the remaining
bytes as the trailing rule string (`read_to_string(..).unwrap()`, a panic on
invalid UTF-8). -/
def zoneInfoNew (buffer : List Nat) : Except Fail ZoneInfo :=
  match read_zone_info consume_32bit_timestamps ⟨buffer, 0⟩ with
  | .error e => .error e
  | .ok (b32, c1) =>
    if b32.header.tzh_version = 50 ∨ b32.header.tzh_version = 51 then
      match read_zone_info consume_64bit_timestamps c1 with
      | .error e => .error e
      | .ok (b64, c2) =>
        if isValidUtf8 (c2.buf.drop c2.pos) then
          .ok { zone_info := b64, time_zone_specifier := c2.buf.drop c2.pos }
        else .error .crash
    else .ok { zone_info := b32, time_zone_specifier := [] }

/-- A `Vec` index operation: the element, or a panic when out of bounds. -/
def expectIdx {α : Type} (l : List α) (i : Nat) : Except Fail α :=
  match l.get? i with
  | some x => .ok x
  | none => .error .crash

/-- The body of the `get_transitions` loop for one transition: resolve the
local-time-type record and both flags by the transition's type index, each
by a plain `Vec` index (panicking when out of bounds). -/
def mkElem (z : ZoneInfoInner) (i : Nat) : Except Fail ZoneInfoElement :=
  match expectIdx z.local_times i with
  | .error e => .error e
  | .ok info =>
  match expectIdx z.transition_flags1 i with
  | .error e => .error e
  | .ok f1 =>
  match expectIdx z.transition_flags2 i with
  | .error e => .error e
  | .ok f2 =>
    .ok { ut_offset := info.ut_offset, isdst := info.isdst,
          abbreviation := info.abbreviation, wall_clock_or_standard := f1,
          local_or_universal_time := f2 }

/-- `BTreeMap::insert` on an association list sorted strictly by key: the
value is replaced when the key is already present. -/
def insertSorted {α : Type} (k : Int) (v : α) : List (Int × α) → List (Int × α)
  | [] => [(k, v)]
  | (k1, v1) :: rest =>
    if k < k1 then (k, v) :: (k1, v1) :: rest
    else if k = k1 then (k, v) :: rest
    else (k1, v1) :: insertSorted k v rest

/-- The `get_transitions` loop over the zipped (time, type index) pairs,
inserting each resolved record into the map. -/
def transitionsGo (z : ZoneInfoInner) :
    List (Int × Nat) → List (Int × ZoneInfoElement) →
    Except Fail (List (Int × ZoneInfoElement))
  | [], m => .ok m
  | (t, i) :: rest, m =>
    match mkElem z i with
    | .error e => .error e
    | .ok el => transitionsGo z rest (insertSorted t el m)

/-- `ZoneInfo::get_transitions`. -/
def get_transitions (z : ZoneInfo) : Except Fail (List (Int × ZoneInfoElement)) :=
  transitionsGo z.zone_info
    (z.zone_info.transision_times.zip z.zone_info.transision_types) []

/-- `ZoneInfo::get_actual_zoneinfo`: the last map entry whose instant is
strictly below the timestamp. -/
def get_actual_zoneinfo (z : ZoneInfo) (t : Int) : Except Fail (Option ZoneInfoElement) :=
  match get_transitions z with
  | .error e => .error e
  | .ok m => .ok (((m.takeWhile (fun p => decide (p.1 < t))).getLast?).map Prod.snd)

/-- `ZoneInfo::get_next_transition_time`: the first map entry whose instant
is not strictly below the timestamp. -/
def get_next_transition_time (z : ZoneInfo) (t : Int) :
    Except Fail (Option (Int × ZoneInfoElement)) :=
  match get_transitions z with
  | .error e => .error e
  | .ok m => .ok ((m.dropWhile (fun p => decide (p.1 < t))).head?)

/-- Key lookup in an association list. -/
def lookupKey {α : Type} (k : Int) : List (Int × α) → Option α
  | [] => none
  | (k1, v1) :: rest => if k = k1 then some v1 else lookupKey k rest

/-- Strict key order between map entries. -/
def keyLt {α : Type} (p q : Int × α) : Prop := p.1 < q.1

/-- The last zipped (time, type index) pair carrying the given instant. -/
def lastDup (l : List (Int × Nat)) (k : Int) : Option (Int × Nat) :=
  (l.filter (fun p => decide (p.1 = k))).getLast?

def exceptIsOk {ε α : Type} : Except ε α → Bool
  | .ok _ => true
  | .error _ => false

/-- A timestamp strategy that consumes exactly `w` bytes: it succeeds,
advancing by `w`, when `w` bytes remain, and reports EOF otherwise.  Both
width strategies of the source satisfy this. -/
def readsW (w : Nat) (tc : Cursor → Except Fail (Int × Cursor)) : Prop :=
  ∀ c : Cursor,
    (∀ v c1, tc c = .ok (v, c1) → c.pos + w ≤ c.buf.length ∧ c1 = ⟨c.buf, c.pos + w⟩) ∧
    (∀ e, tc c = .error e → e = .eof ∧ c.buf.length < c.pos + w)

/-! Concrete fixtures: synthetic tzfile buffers and their decoded forms,
used to witness the claims on explicit inputs. -/

/-- Big-endian 4-byte encoding of a value below 2^32. -/
def u32be (n : Nat) : List Nat :=
  [n / 16777216 % 256, n / 65536 % 256, n / 256 % 256, n % 256]

def exHead : TzHeadInner :=
  { tzh_magic := [84, 90, 105, 102], tzh_version := 0, tzh_ttigmtcnt := 2,
    tzh_ttisstdcnt := 2, tzh_leapcnt := 0, tzh_timecnt := 2,
    tzh_typecnt := 2, tzh_charcnt := 4 }

/-- A small well-formed zone with transitions at instants 100 and 200. -/
def exInner : ZoneInfoInner :=
  { header := exHead, transision_times := [100, 200], transision_types := [0, 1],
    local_times := [{ ut_offset := 3600, isdst := false, abbreviation := [65] },
                    { ut_offset := 7200, isdst := true, abbreviation := [66] }],
    leap_seconds_data := [],
    transition_flags1 := [TransitionTimeFlag.WallClock, TransitionTimeFlag.Standard],
    transition_flags2 := [TransitionTimeFlag.Local, TransitionTimeFlag.Universal] }

def exZone : ZoneInfo := { zone_info := exInner, time_zone_specifier := [] }

def exElemA : ZoneInfoElement :=
  { ut_offset := 3600, isdst := false, abbreviation := [65],
    wall_clock_or_standard := TransitionTimeFlag.WallClock,
    local_or_universal_time := TransitionTimeFlag.Local }

def exElemB : ZoneInfoElement :=
  { ut_offset := 7200, isdst := true, abbreviation := [66],
    wall_clock_or_standard := TransitionTimeFlag.Standard,
    local_or_universal_time := TransitionTimeFlag.Universal }

def exMap : List (Int × ZoneInfoElement) := [(100, exElemA), (200, exElemB)]

/-- Fixed-offset zone file (no transition, one type, abbreviation CET),
with one std/wall and one utc/local flag byte. -/
def bufC3 : List Nat :=
  [84, 90, 105, 102, 0] ++ List.replicate 15 0 ++
  u32be 1 ++ u32be 1 ++ u32be 0 ++ u32be 0 ++ u32be 1 ++ u32be 4 ++
  [0, 0, 14, 16, 0, 0] ++ [67, 69, 84, 0] ++ [1] ++ [1]

def innerC3 : ZoneInfoInner :=
  { header := { tzh_magic := [84, 90, 105, 102], tzh_version := 0,
                tzh_ttigmtcnt := 1, tzh_ttisstdcnt := 1, tzh_leapcnt := 0,
                tzh_timecnt := 0, tzh_typecnt := 1, tzh_charcnt := 4 },
    transision_times := [i64min], transision_types := [0],
    local_times := [{ ut_offset := 3600, isdst := false, abbreviation := [67, 69, 84] }],
    leap_seconds_data := [],
    transition_flags1 := [TransitionTimeFlag.Standard],
    transition_flags2 := [TransitionTimeFlag.Universal] }

/-- Fixed-offset zone file like `bufC3` but with empty flag tables. -/
def bufC3x : List Nat :=
  [84, 90, 105, 102, 0] ++ List.replicate 15 0 ++
  u32be 0 ++ u32be 0 ++ u32be 0 ++ u32be 0 ++ u32be 1 ++ u32be 4 ++
  [0, 0, 14, 16, 0, 0] ++ [67, 69, 84, 0]

def innerC3x : ZoneInfoInner :=
  { header := { tzh_magic := [84, 90, 105, 102], tzh_version := 0,
                tzh_ttigmtcnt := 0, tzh_ttisstdcnt := 0, tzh_leapcnt := 0,
                tzh_timecnt := 0, tzh_typecnt := 1, tzh_charcnt := 4 },
    transision_times := [i64min], transision_types := [0],
    local_times := [{ ut_offset := 3600, isdst := false, abbreviation := [67, 69, 84] }],
    leap_seconds_data := [], transition_flags1 := [], transition_flags2 := [] }

/-- One transition, one type, but both flag tables empty. -/
def bufC4 : List Nat :=
  [84, 90, 105, 102, 0] ++ List.replicate 15 0 ++
  u32be 0 ++ u32be 0 ++ u32be 0 ++ u32be 1 ++ u32be 1 ++ u32be 2 ++
  u32be 0 ++ [0] ++ [0, 0, 14, 16, 0, 0] ++ [88, 0]

def innerC4 : ZoneInfoInner :=
  { header := { tzh_magic := [84, 90, 105, 102], tzh_version := 0,
                tzh_ttigmtcnt := 0, tzh_ttisstdcnt := 0, tzh_leapcnt := 0,
                tzh_timecnt := 1, tzh_typecnt := 1, tzh_charcnt := 2 },
    transision_times := [0], transision_types := [0],
    local_times := [{ ut_offset := 3600, isdst := false, abbreviation := [88] }],
    leap_seconds_data := [], transition_flags1 := [], transition_flags2 := [] }

/-- A well-formed fixed-offset body whose magic is `XXXX`, not `TZif`. -/
def bufC5 : List Nat :=
  [88, 88, 88, 88, 0] ++ List.replicate 15 0 ++
  u32be 0 ++ u32be 0 ++ u32be 0 ++ u32be 0 ++ u32be 1 ++ u32be 1 ++
  [0, 0, 0, 0, 0, 0] ++ [0]

/-- A 44-byte header whose magic is `XXXX`. -/
def bufC5h : List Nat := [88, 88, 88, 88] ++ List.replicate 40 0

/-- One transition whose type index 5 exceeds the single-entry type table. -/
def bufC6 : List Nat :=
  [84, 90, 105, 102, 0] ++ List.replicate 15 0 ++
  u32be 0 ++ u32be 0 ++ u32be 0 ++ u32be 1 ++ u32be 1 ++ u32be 1 ++
  u32be 0 ++ [5] ++ [0, 0, 0, 0, 0, 0] ++ [0]

def innerC6 : ZoneInfoInner :=
  { header := { tzh_magic := [84, 90, 105, 102], tzh_version := 0,
                tzh_ttigmtcnt := 0, tzh_ttisstdcnt := 0, tzh_leapcnt := 0,
                tzh_timecnt := 1, tzh_typecnt := 1, tzh_charcnt := 1 },
    transision_times := [0], transision_types := [5],
    local_times := [{ ut_offset := 0, isdst := false, abbreviation := [] }],
    leap_seconds_data := [], transition_flags1 := [], transition_flags2 := [] }

/-- Declares a 4-byte abbreviation pool but the buffer ends after one pool
byte: the pool read is short. -/
def bufC7 : List Nat :=
  [84, 90, 105, 102, 0] ++ List.replicate 15 0 ++
  u32be 0 ++ u32be 0 ++ u32be 0 ++ u32be 0 ++ u32be 1 ++ u32be 4 ++
  [0, 0, 14, 16, 0, 0] ++ [65]

def innerC7 : ZoneInfoInner :=
  { header := { tzh_magic := [84, 90, 105, 102], tzh_version := 0,
                tzh_ttigmtcnt := 0, tzh_ttisstdcnt := 0, tzh_leapcnt := 0,
                tzh_timecnt := 0, tzh_typecnt := 1, tzh_charcnt := 4 },
    transision_times := [i64min], transision_types := [0],
    local_times := [{ ut_offset := 3600, isdst := false, abbreviation := [65] }],
    leap_seconds_data := [], transition_flags1 := [], transition_flags2 := [] }

/-- Two types, transitions at instants 999 and 1000. -/
def bufC8 : List Nat :=
  [84, 90, 105, 102, 0] ++ List.replicate 15 0 ++
  u32be 2 ++ u32be 2 ++ u32be 0 ++ u32be 2 ++ u32be 2 ++ u32be 2 ++
  u32be 999 ++ u32be 1000 ++ [0, 1] ++
  [0, 0, 14, 16, 0, 0] ++ [0, 0, 28, 32, 1, 0] ++ [65, 0] ++
  [0, 1] ++ [0, 1]

def innerC8 : ZoneInfoInner :=
  { header := { tzh_magic := [84, 90, 105, 102], tzh_version := 0,
                tzh_ttigmtcnt := 2, tzh_ttisstdcnt := 2, tzh_leapcnt := 0,
                tzh_timecnt := 2, tzh_typecnt := 2, tzh_charcnt := 2 },
    transision_times := [999, 1000], transision_types := [0, 1],
    local_times := [{ ut_offset := 3600, isdst := false, abbreviation := [65] },
                    { ut_offset := 7200, isdst := true, abbreviation := [65] }],
    leap_seconds_data := [],
    transition_flags1 := [TransitionTimeFlag.WallClock, TransitionTimeFlag.Standard],
    transition_flags2 := [TransitionTimeFlag.Local, TransitionTimeFlag.Universal] }

def elemC8a : ZoneInfoElement :=
  { ut_offset := 3600, isdst := false, abbreviation := [65],
    wall_clock_or_standard := TransitionTimeFlag.WallClock,
    local_or_universal_time := TransitionTimeFlag.Local }

def elemC8b : ZoneInfoElement :=
  { ut_offset := 7200, isdst := true, abbreviation := [65],
    wall_clock_or_standard := TransitionTimeFlag.Standard,
    local_or_universal_time := TransitionTimeFlag.Universal }

/-- One body of the synthetic version-2 file: one transition (timestamp
bytes supplied by the caller), one type, abbreviation CET. -/
def bodyC9 (tsbytes : List Nat) : List Nat :=
  [84, 90, 105, 102, 50] ++ List.replicate 15 0 ++
  u32be 1 ++ u32be 1 ++ u32be 0 ++ u32be 1 ++ u32be 1 ++ u32be 4 ++
  tsbytes ++ [0] ++ [0, 0, 14, 16, 0, 0] ++ [67, 69, 84, 0] ++ [1] ++ [1]

/-- Version-2 file carrying the same logical data (one transition at
timestamp 1000) in its legacy and wide bodies. -/
def bufC9 : List Nat := bodyC9 (u32be 1000) ++ bodyC9 ([0, 0, 0, 0] ++ u32be 1000)

def innerC9 : ZoneInfoInner :=
  { header := { tzh_magic := [84, 90, 105, 102], tzh_version := 50,
                tzh_ttigmtcnt := 1, tzh_ttisstdcnt := 1, tzh_leapcnt := 0,
                tzh_timecnt := 1, tzh_typecnt := 1, tzh_charcnt := 4 },
    transision_times := [1000], transision_types := [0],
    local_times := [{ ut_offset := 3600, isdst := false, abbreviation := [67, 69, 84] }],
    leap_seconds_data := [],
    transition_flags1 := [TransitionTimeFlag.Standard],
    transition_flags2 := [TransitionTimeFlag.Universal] }

/-- Two transitions sharing the instant 50. -/
def bufC10 : List Nat :=
  [84, 90, 105, 102, 0] ++ List.replicate 15 0 ++
  u32be 1 ++ u32be 1 ++ u32be 0 ++ u32be 2 ++ u32be 1 ++ u32be 2 ++
  u32be 50 ++ u32be 50 ++ [0, 0] ++ [0, 0, 14, 16, 0, 0] ++ [65, 0] ++ [1] ++ [1]

def innerC10 : ZoneInfoInner :=
  { header := { tzh_magic := [84, 90, 105, 102], tzh_version := 0,
                tzh_ttigmtcnt := 1, tzh_ttisstdcnt := 1, tzh_leapcnt := 0,
                tzh_timecnt := 2, tzh_typecnt := 1, tzh_charcnt := 2 },
    transision_times := [50, 50], transision_types := [0, 0],
    local_times := [{ ut_offset := 3600, isdst := false, abbreviation := [65] }],
    leap_seconds_data := [],
    transition_flags1 := [TransitionTimeFlag.Standard],
    transition_flags2 := [TransitionTimeFlag.Universal] }

def mapC10 : List (Int × ZoneInfoElement) :=
  [(50, { ut_offset := 3600, isdst := false, abbreviation := [65],
          wall_clock_or_standard := TransitionTimeFlag.Standard,
          local_or_universal_time := TransitionTimeFlag.Universal })]

/-! Lemmas about the sorted association list that models `BTreeMap`. -/

theorem insertSorted_mem {α : Type} {k : Int} {v : α} {l : List (Int × α)} {q : Int × α}
    (h : q ∈ insertSorted k v l) : q = (k, v) ∨ q ∈ l := by
  induction l with
  | nil => simpa [insertSorted] using h
  | cons p rest ih =>
    obtain ⟨k1, v1⟩ := p
    simp only [insertSorted] at h
    by_cases hlt : k < k1
    · rw [if_pos hlt] at h
      rcases List.mem_cons.mp h with h | h
      · exact Or.inl h
      · exact Or.inr h
    · rw [if_neg hlt] at h
      by_cases heq : k = k1
      · rw [if_pos heq] at h
        rcases List.mem_cons.mp h with h | h
        · exact Or.inl h
        · exact Or.inr (List.mem_cons_of_mem _ h)
      · rw [if_neg heq] at h
        rcases List.mem_cons.mp h with h | h
        · exact Or.inr (List.mem_cons.mpr (Or.inl h))
        · rcases ih h with h1 | h1
          · exact Or.inl h1
          · exact Or.inr (List.mem_cons_of_mem _ h1)

theorem insertSorted_pairwise {α : Type} {k : Int} {v : α} {l : List (Int × α)}
    (h : l.Pairwise keyLt) : (insertSorted k v l).Pairwise keyLt := by
  induction l with
  | nil => simp [insertSorted, keyLt]
  | cons p rest ih =>
    obtain ⟨k1, v1⟩ := p
    rw [List.pairwise_cons] at h
    obtain ⟨h1, h2⟩ := h
    simp only [insertSorted]
    by_cases hlt : k < k1
    · rw [if_pos hlt]
      refine List.Pairwise.cons ?_ (List.Pairwise.cons h1 h2)
      intro q hq
      rcases List.mem_cons.mp hq with rfl | hq
      · exact hlt
      · exact lt_trans hlt (h1 q hq)
    · rw [if_neg hlt]
      by_cases heq : k = k1
      · rw [if_pos heq]
        refine List.Pairwise.cons ?_ h2
        intro q hq
        exact heq ▸ h1 q hq
      · rw [if_neg heq]
        refine List.Pairwise.cons ?_ (ih h2)
        intro q hq
        rcases insertSorted_mem hq with rfl | hq
        · show k1 < k
          omega
        · exact h1 q hq

theorem lookupKey_insertSorted {α : Type} (k k' : Int) (v : α) (l : List (Int × α)) :
    lookupKey k' (insertSorted k v l) = if k' = k then some v else lookupKey k' l := by
  induction l with
  | nil => simp [insertSorted, lookupKey]
  | cons p rest ih =>
    obtain ⟨k1, v1⟩ := p
    simp only [insertSorted]
    by_cases hlt : k < k1
    · rw [if_pos hlt]
      simp only [lookupKey]
    · rw [if_neg hlt]
      by_cases heq : k = k1
      · subst heq
        rw [if_pos rfl]
        simp only [lookupKey]
        by_cases he : k' = k
        · simp [he]
        · simp [he]
      · rw [if_neg heq]
        simp only [lookupKey]
        by_cases he1 : k' = k1
        · rw [if_pos he1, if_pos he1, if_neg (by omega : ¬ k' = k)]
        · rw [if_neg he1, if_neg he1, ih]

theorem mem_iff_lookupKey {α : Type} {m : List (Int × α)} (hs : m.Pairwise keyLt)
    (k : Int) (v : α) : (k, v) ∈ m ↔ lookupKey k m = some v := by
  induction m with
  | nil => simp [lookupKey]
  | cons p rest ih =>
    obtain ⟨k1, v1⟩ := p
    rw [List.pairwise_cons] at hs
    obtain ⟨h1, h2⟩ := hs
    simp only [lookupKey, List.mem_cons]
    by_cases he : k = k1
    · subst he
      rw [if_pos rfl]
      constructor
      · rintro (h | h)
        · rw [Prod.mk.injEq] at h
          rw [h.2]
        · exact absurd (h1 _ h) (lt_irrefl k)
      · intro h
        rw [Option.some.injEq] at h
        exact Or.inl (by rw [h])
    · rw [if_neg he]
      constructor
      · rintro (h | h)
        · rw [Prod.mk.injEq] at h
          exact absurd h.1 he
        · exact (ih h2).mp h
      · intro h
        exact Or.inr ((ih h2).mpr h)

theorem keyUnique {α : Type} {m : List (Int × α)} (hs : m.Pairwise keyLt) {k : Int}
    {v v' : α} (h : (k, v) ∈ m) (h' : (k, v') ∈ m) : v = v' := by
  rw [mem_iff_lookupKey hs] at h h'
  rw [h] at h'
  exact Option.some.inj h'

theorem getLast?_cons_ne_nil {α : Type} (a : α) {l : List α} (h : l ≠ []) :
    (a :: l).getLast? = l.getLast? := by
  cases l with
  | nil => exact absurd rfl h
  | cons b t => exact List.getLast?_cons_cons

theorem sortedTakeWhileNil {α : Type} {m : List (Int × α)} (hs : m.Pairwise keyLt)
    {t : Int} (h : m.takeWhile (fun p => decide (p.1 < t)) = []) :
    ∀ p ∈ m, ¬ p.1 < t := by
  cases m with
  | nil => intro p hp; cases hp
  | cons q rest =>
    rw [List.pairwise_cons] at hs
    rw [List.takeWhile_cons] at h
    by_cases hq : q.1 < t
    · rw [if_pos (by simpa using hq)] at h
      cases h
    · rw [if_neg (by simpa using hq)] at h
      intro p hp
      rcases List.mem_cons.mp hp with rfl | hp
      · exact hq
      · intro hlt
        exact hq (lt_trans (hs.1 p hp) hlt)

theorem predNone {α : Type} {m : List (Int × α)} (hs : m.Pairwise keyLt) (t : Int) :
    (m.takeWhile (fun p => decide (p.1 < t))).getLast? = none ↔ ∀ p ∈ m, ¬ p.1 < t := by
  rw [List.getLast?_eq_none_iff]
  constructor
  · exact sortedTakeWhileNil hs
  · intro h
    cases m with
    | nil => rfl
    | cons q rest =>
      rw [List.takeWhile_cons, if_neg (by simpa using h q (List.mem_cons_self q rest))]

theorem predSome {α : Type} {m : List (Int × α)} (hs : m.Pairwise keyLt) {t : Int}
    {q : Int × α} (h : (m.takeWhile (fun p => decide (p.1 < t))).getLast? = some q) :
    q ∈ m ∧ q.1 < t ∧ ∀ p ∈ m, p.1 < t → p.1 ≤ q.1 := by
  induction m with
  | nil => simp at h
  | cons a rest ih =>
    rw [List.pairwise_cons] at hs
    rw [List.takeWhile_cons] at h
    by_cases ha : a.1 < t
    · rw [if_pos (by simpa using ha)] at h
      rcases hrt : rest.takeWhile (fun p => decide (p.1 < t)) with _ | ⟨b, tl⟩
      · rw [hrt, List.getLast?_singleton] at h
        rw [Option.some.injEq] at h
        subst h
        refine ⟨List.mem_cons_self _ _, ha, ?_⟩
        intro p hp hpt
        rcases List.mem_cons.mp hp with rfl | hp
        · exact le_refl _
        · exact absurd hpt (sortedTakeWhileNil hs.2 hrt p hp)
      · rw [hrt, List.getLast?_cons_cons, ← hrt] at h
        obtain ⟨hqm, hqt, hmax⟩ := ih hs.2 h
        refine ⟨List.mem_cons_of_mem _ hqm, hqt, ?_⟩
        intro p hp hpt
        rcases List.mem_cons.mp hp with rfl | hp
        · exact le_of_lt (hs.1 q hqm)
        · exact hmax p hp hpt
    · rw [if_neg (by simpa using ha)] at h
      simp at h

theorem succNone {α : Type} (m : List (Int × α)) (t : Int) :
    (m.dropWhile (fun p => decide (p.1 < t))).head? = none ↔ ∀ p ∈ m, p.1 < t := by
  rw [List.head?_eq_none_iff, List.dropWhile_eq_nil_iff]
  simp

theorem succSome {α : Type} {m : List (Int × α)} (hs : m.Pairwise keyLt) {t : Int}
    {q : Int × α} (h : (m.dropWhile (fun p => decide (p.1 < t))).head? = some q) :
    q ∈ m ∧ ¬ q.1 < t ∧ ∀ p ∈ m, ¬ p.1 < t → q.1 ≤ p.1 := by
  induction m with
  | nil => simp at h
  | cons a rest ih =>
    rw [List.pairwise_cons] at hs
    rw [List.dropWhile_cons] at h
    by_cases ha : a.1 < t
    · rw [if_pos (by simpa using ha)] at h
      obtain ⟨hqm, hqt, hmin⟩ := ih hs.2 h
      refine ⟨List.mem_cons_of_mem _ hqm, hqt, ?_⟩
      intro p hp hpt
      rcases List.mem_cons.mp hp with rfl | hp
      · exact absurd ha hpt
      · exact hmin p hp hpt
    · rw [if_neg (by simpa using ha), List.head?_cons, Option.some.injEq] at h
      subst h
      refine ⟨List.mem_cons_self _ _, ha, ?_⟩
      intro p hp hpt
      rcases List.mem_cons.mp hp with rfl | hp
      · exact le_refl _
      · exact le_of_lt (hs.1 p hp)

/-! Lemmas about the `get_transitions` loop. -/

theorem mkElem_error_crash {z : ZoneInfoInner} {i : Nat} {e : Fail}
    (h : mkElem z i = .error e) : e = .crash := by
  simp only [mkElem, expectIdx] at h
  cases hA : z.local_times.get? i with
  | none => rw [hA] at h; exact (Except.error.inj h).symm
  | some info =>
    rw [hA] at h
    cases hB : z.transition_flags1.get? i with
    | none => rw [hB] at h; exact (Except.error.inj h).symm
    | some f1 =>
      rw [hB] at h
      cases hC : z.transition_flags2.get? i with
      | none => rw [hC] at h; exact (Except.error.inj h).symm
      | some f2 => rw [hC] at h; exact absurd h (by simp)

theorem mkElem_ok_iff {z : ZoneInfoInner} {i : Nat} :
    (∃ el, mkElem z i = .ok el) ↔
      i < z.local_times.length ∧ i < z.transition_flags1.length ∧
        i < z.transition_flags2.length := by
  simp only [mkElem, expectIdx]
  cases hA : z.local_times.get? i with
  | none =>
    have hA1 := List.get?_eq_none.mp hA
    constructor
    · rintro ⟨el, hel⟩; cases hel
    · intro h; omega
  | some info =>
    obtain ⟨hAl, -⟩ := List.get?_eq_some.mp hA
    cases hB : z.transition_flags1.get? i with
    | none =>
      have hB1 := List.get?_eq_none.mp hB
      constructor
      · rintro ⟨el, hel⟩; cases hel
      · intro h; omega
    | some f1 =>
      obtain ⟨hBl, -⟩ := List.get?_eq_some.mp hB
      cases hC : z.transition_flags2.get? i with
      | none =>
        have hC1 := List.get?_eq_none.mp hC
        constructor
        · rintro ⟨el, hel⟩; cases hel
        · intro h; omega
      | some f2 =>
        obtain ⟨hCl, -⟩ := List.get?_eq_some.mp hC
        constructor
        · intro _; exact ⟨hAl, hBl, hCl⟩
        · intro _; exact ⟨_, rfl⟩

theorem transitionsGo_pairwise {z : ZoneInfoInner} :
    ∀ {l : List (Int × Nat)} {m m' : List (Int × ZoneInfoElement)},
      m.Pairwise keyLt → transitionsGo z l m = .ok m' → m'.Pairwise keyLt := by
  intro l
  induction l with
  | nil =>
    intro m m' hm h
    simp only [transitionsGo] at h
    cases h
    exact hm
  | cons p rest ih =>
    intro m m' hm h
    obtain ⟨t, i⟩ := p
    simp only [transitionsGo] at h
    cases hmk : mkElem z i with
    | error e => rw [hmk] at h; cases h
    | ok el =>
      rw [hmk] at h
      exact ih (insertSorted_pairwise hm) h

theorem transitionsGo_mem {z : ZoneInfoInner} :
    ∀ {l : List (Int × Nat)} {m m' : List (Int × ZoneInfoElement)},
      transitionsGo z l m = .ok m' →
      ∀ q ∈ m', q ∈ m ∨ ∃ p ∈ l, p.1 = q.1 ∧ mkElem z p.2 = .ok q.2 := by
  intro l
  induction l with
  | nil =>
    intro m m' h q hq
    simp only [transitionsGo] at h
    cases h
    exact Or.inl hq
  | cons p rest ih =>
    intro m m' h q hq
    obtain ⟨t, i⟩ := p
    simp only [transitionsGo] at h
    cases hmk : mkElem z i with
    | error e => rw [hmk] at h; cases h
    | ok el =>
      rw [hmk] at h
      rcases ih h q hq with hq1 | ⟨p1, hp1, hpe⟩
      · rcases insertSorted_mem hq1 with rfl | hq2
        · exact Or.inr ⟨(t, i), List.mem_cons_self _ _, rfl, hmk⟩
        · exact Or.inl hq2
      · exact Or.inr ⟨p1, List.mem_cons_of_mem _ hp1, hpe⟩

theorem transitionsGo_allOk {z : ZoneInfoInner} :
    ∀ {l : List (Int × Nat)} {m m' : List (Int × ZoneInfoElement)},
      transitionsGo z l m = .ok m' → ∀ p ∈ l, ∃ el, mkElem z p.2 = .ok el := by
  intro l
  induction l with
  | nil => intro m m' h p hp; cases hp
  | cons a rest ih =>
    intro m m' h p hp
    obtain ⟨t, i⟩ := a
    simp only [transitionsGo] at h
    cases hmk : mkElem z i with
    | error e => rw [hmk] at h; cases h
    | ok el =>
      rw [hmk] at h
      rcases List.mem_cons.mp hp with rfl | hp
      · exact ⟨el, hmk⟩
      · exact ih h p hp

theorem transitionsGo_okExists {z : ZoneInfoInner} :
    ∀ {l : List (Int × Nat)}, (∀ p ∈ l, ∃ el, mkElem z p.2 = .ok el) →
      ∀ m, ∃ m', transitionsGo z l m = .ok m' := by
  intro l
  induction l with
  | nil => intro _ m; exact ⟨m, rfl⟩
  | cons a rest ih =>
    intro hall m
    obtain ⟨t, i⟩ := a
    obtain ⟨el, hel⟩ := hall (t, i) (List.mem_cons_self _ _)
    obtain ⟨m', hm'⟩ := ih (fun p hp => hall p (List.mem_cons_of_mem _ hp)) (insertSorted t el m)
    refine ⟨m', ?_⟩
    simp only [transitionsGo, hel]
    exact hm'

theorem transitionsGo_crash {z : ZoneInfoInner} :
    ∀ {l : List (Int × Nat)}, (∃ p ∈ l, mkElem z p.2 = .error .crash) →
      ∀ m, transitionsGo z l m = .error .crash := by
  intro l
  induction l with
  | nil => rintro ⟨p, hp, -⟩; cases hp
  | cons a rest ih =>
    rintro ⟨p, hp, hperr⟩ m
    obtain ⟨t, i⟩ := a
    rcases List.mem_cons.mp hp with rfl | hp
    · simp only [transitionsGo, hperr]
    · cases hmk : mkElem z i with
      | error e =>
        simp only [transitionsGo, hmk]
        rw [mkElem_error_crash hmk]
      | ok el =>
        simp only [transitionsGo, hmk]
        exact ih ⟨p, hp, hperr⟩ _

theorem transitionsGo_lookup {z : ZoneInfoInner} :
    ∀ {l : List (Int × Nat)} {m m' : List (Int × ZoneInfoElement)},
      transitionsGo z l m = .ok m' → ∀ k,
      lookupKey k m' = match lastDup l k with
        | none => lookupKey k m
        | some p => (mkElem z p.2).toOption := by
  intro l
  induction l with
  | nil =>
    intro m m' h k
    simp only [transitionsGo] at h
    cases h
    simp [lastDup]
  | cons a rest ih =>
    intro m m' h k
    obtain ⟨t, i⟩ := a
    simp only [transitionsGo] at h
    cases hmk : mkElem z i with
    | error e => rw [hmk] at h; cases h
    | ok el =>
      rw [hmk] at h
      have IH := ih h k
      by_cases htk : t = k
      · subst htk
        cases hrt : lastDup rest t with
        | none =>
          have hfr : rest.filter (fun p => decide (p.1 = t)) = [] :=
            List.getLast?_eq_none_iff.mp hrt
          rw [IH, hrt, lookupKey_insertSorted, if_pos rfl]
          have hcons : lastDup ((t, i) :: rest) t = some (t, i) := by
            simp only [lastDup, List.filter_cons]
            rw [if_pos (by simp), hfr, List.getLast?_singleton]
          rw [hcons]
          simp [hmk, Except.toOption]
        | some p1 =>
          have hne : rest.filter (fun p => decide (p.1 = t)) ≠ [] := by
            intro hnil
            rw [lastDup, hnil] at hrt
            cases hrt
          have hcons : lastDup ((t, i) :: rest) t = some p1 := by
            simp only [lastDup, List.filter_cons]
            rw [if_pos (by simp), getLast?_cons_ne_nil _ hne]
            exact hrt
          rw [IH, hrt, hcons]
      · have hcons : lastDup ((t, i) :: rest) k = lastDup rest k := by
          simp only [lastDup, List.filter_cons]
          rw [if_neg (by simp [htk])]
        rw [IH, hcons]
        cases hrt : lastDup rest k with
        | none =>
          rw [lookupKey_insertSorted, if_neg (fun he => htk he.symm)]
        | some p1 => rfl

theorem mkElem_congr {a b : ZoneInfoInner} (h1 : a.local_times = b.local_times)
    (h2 : a.transition_flags1 = b.transition_flags1)
    (h3 : a.transition_flags2 = b.transition_flags2) (i : Nat) :
    mkElem a i = mkElem b i := by
  simp only [mkElem, h1, h2, h3]

theorem transitionsGo_congr {a b : ZoneInfoInner}
    (hmk : ∀ i, mkElem a i = mkElem b i) :
    ∀ (l : List (Int × Nat)) (m : List (Int × ZoneInfoElement)),
      transitionsGo a l m = transitionsGo b l m := by
  intro l
  induction l with
  | nil => intro m; rfl
  | cons p rest ih =>
    intro m
    obtain ⟨t, i⟩ := p
    simp only [transitionsGo, hmk i]
    cases mkElem b i with
    | error e => rfl
    | ok el => exact ih _

/-! Lemmas about the primitive reads and the decode passes. -/

theorem readU8_ok_inv {c : Cursor} {b : Nat} {c1 : Cursor} (h : readU8 c = .ok (b, c1)) :
    c.pos < c.buf.length ∧ c1 = ⟨c.buf, c.pos + 1⟩ := by
  by_cases hc : c.pos < c.buf.length
  · simp only [readU8, if_pos hc] at h
    exact ⟨hc, ((Prod.mk.injEq _ _ _ _).mp (Except.ok.inj h)).2.symm⟩
  · simp only [readU8, if_neg hc] at h
    cases h

theorem readU8_error_inv {c : Cursor} {e : Fail} (h : readU8 c = .error e) :
    e = .eof ∧ c.buf.length ≤ c.pos := by
  by_cases hc : c.pos < c.buf.length
  · simp only [readU8, if_pos hc] at h
    cases h
  · simp only [readU8, if_neg hc] at h
    exact ⟨(Except.error.inj h).symm, by omega⟩

theorem readI32_ok_inv {c : Cursor} {v : Int} {c1 : Cursor} (h : readI32 c = .ok (v, c1)) :
    c.pos + 4 ≤ c.buf.length ∧ c1 = ⟨c.buf, c.pos + 4⟩ := by
  by_cases hc : c.pos + 4 ≤ c.buf.length
  · simp only [readI32, readBytesExact, if_pos hc] at h
    exact ⟨hc, ((Prod.mk.injEq _ _ _ _).mp (Except.ok.inj h)).2.symm⟩
  · simp only [readI32, readBytesExact, if_neg hc] at h
    cases h

theorem readI32_error_inv {c : Cursor} {e : Fail} (h : readI32 c = .error e) :
    e = .eof ∧ c.buf.length < c.pos + 4 := by
  by_cases hc : c.pos + 4 ≤ c.buf.length
  · simp only [readI32, readBytesExact, if_pos hc] at h
    cases h
  · simp only [readI32, readBytesExact, if_neg hc] at h
    exact ⟨(Except.error.inj h).symm, by omega⟩

theorem readI64_ok_inv {c : Cursor} {v : Int} {c1 : Cursor} (h : readI64 c = .ok (v, c1)) :
    c.pos + 8 ≤ c.buf.length ∧ c1 = ⟨c.buf, c.pos + 8⟩ := by
  by_cases hc : c.pos + 8 ≤ c.buf.length
  · simp only [readI64, readBytesExact, if_pos hc] at h
    exact ⟨hc, ((Prod.mk.injEq _ _ _ _).mp (Except.ok.inj h)).2.symm⟩
  · simp only [readI64, readBytesExact, if_neg hc] at h
    cases h

theorem readI64_error_inv {c : Cursor} {e : Fail} (h : readI64 c = .error e) :
    e = .eof ∧ c.buf.length < c.pos + 8 := by
  by_cases hc : c.pos + 8 ≤ c.buf.length
  · simp only [readI64, readBytesExact, if_pos hc] at h
    cases h
  · simp only [readI64, readBytesExact, if_neg hc] at h
    exact ⟨(Except.error.inj h).symm, by omega⟩

theorem consume32_readsW : readsW 4 consume_32bit_timestamps := by
  intro c
  exact ⟨fun v c1 h => readI32_ok_inv h, fun e h => readI32_error_inv h⟩

theorem consume64_readsW : readsW 8 consume_64bit_timestamps := by
  intro c
  exact ⟨fun v c1 h => readI64_ok_inv h, fun e h => readI64_error_inv h⟩

theorem decode_transition_times_succ (tc : Cursor → Except Fail (Int × Cursor))
    (n : Nat) (c : Cursor) :
    decode_transition_times tc (n + 1) c =
      match tc c with
      | .error e => .error e
      | .ok (t, c1) =>
        match decode_transition_times tc n c1 with
        | .error e => .error e
        | .ok (ts, c2) => .ok (t :: ts, c2) := rfl

theorem decode_transition_types_succ (n : Nat) (c : Cursor) :
    decode_transition_types (n + 1) c =
      match readU8 c with
      | .error e => .error e
      | .ok (b, c1) =>
        match decode_transition_types n c1 with
        | .error e => .error e
        | .ok (bs, c2) => .ok (b :: bs, c2) := rfl

theorem decodeLocalRaw_succ (n : Nat) (c : Cursor) :
    decodeLocalRaw (n + 1) c =
      match readI32 c with
      | .error e => .error e
      | .ok (off, c1) =>
        match readU8 c1 with
        | .error e => .error e
        | .ok (dst, c2) =>
          match readU8 c2 with
          | .error e => .error e
          | .ok (idx, c3) =>
            match decodeLocalRaw n c3 with
            | .error e => .error e
            | .ok (rest, c4) => .ok ((off, dst, idx) :: rest, c4) := rfl

theorem decode_leap_second_corrections_succ (tc : Cursor → Except Fail (Int × Cursor))
    (n : Nat) (c : Cursor) :
    decode_leap_second_corrections tc (n + 1) c =
      match tc c with
      | .error e => .error e
      | .ok (t, c1) =>
        match readI32 c1 with
        | .error e => .error e
        | .ok (s, c2) =>
          match decode_leap_second_corrections tc n c2 with
          | .error e => .error e
          | .ok (ls, c3) => .ok ((t, s) :: ls, c3) := rfl

theorem decode_transition_flags1_succ (n : Nat) (c : Cursor) :
    decode_transition_flags1 (n + 1) c =
      match readU8 c with
      | .error e => .error e
      | .ok (b, c1) =>
        match decode_transition_flags1 n c1 with
        | .error e => .error e
        | .ok (fs, c2) =>
          .ok ((if b = 0 then TransitionTimeFlag.WallClock else TransitionTimeFlag.Standard) :: fs,
               c2) := rfl

theorem decode_transition_flags2_succ (n : Nat) (c : Cursor) :
    decode_transition_flags2 (n + 1) c =
      match readU8 c with
      | .error e => .error e
      | .ok (b, c1) =>
        match decode_transition_flags2 n c1 with
        | .error e => .error e
        | .ok (fs, c2) =>
          .ok ((if b = 0 then TransitionTimeFlag.Local else TransitionTimeFlag.Universal) :: fs,
               c2) := rfl

theorem decode_transition_times_ok_inv {w : Nat} {tc : Cursor → Except Fail (Int × Cursor)}
    (htc : readsW w tc) :
    ∀ (n : Nat) (c : Cursor) (l : List Int) (c' : Cursor),
      decode_transition_times tc (n + 1) c = .ok (l, c') →
      c.pos + w * n + w ≤ c.buf.length := by
  intro n
  induction n with
  | zero =>
    intro c l c' h
    rw [decode_transition_times_succ] at h
    cases htcc : tc c with
    | error e => simp only [htcc] at h; cases h
    | ok vc =>
      obtain ⟨v, c1⟩ := vc
      obtain ⟨hle, rfl⟩ := (htc c).1 v c1 htcc
      omega
  | succ n ih =>
    intro c l c' h
    rw [decode_transition_times_succ] at h
    cases htcc : tc c with
    | error e => simp only [htcc] at h; cases h
    | ok vc =>
      obtain ⟨v, c1⟩ := vc
      obtain ⟨hle, rfl⟩ := (htc c).1 v c1 htcc
      simp only [htcc] at h
      cases hrec : decode_transition_times tc (n + 1) ⟨c.buf, c.pos + w⟩ with
      | error e => simp only [hrec] at h; cases h
      | ok lc =>
        obtain ⟨ts, c2⟩ := lc
        have hih : c.pos + w + w * n + w ≤ c.buf.length :=
          ih ⟨c.buf, c.pos + w⟩ ts c2 hrec
        rw [Nat.mul_succ]
        omega

theorem decode_transition_times_error_inv {w : Nat} {tc : Cursor → Except Fail (Int × Cursor)}
    (htc : readsW w tc) :
    ∀ (n : Nat) (c : Cursor) (e : Fail),
      decode_transition_times tc n c = .error e → e = .eof := by
  intro n
  induction n with
  | zero => intro c e h; cases h
  | succ n ih =>
    intro c e h
    rw [decode_transition_times_succ] at h
    cases htcc : tc c with
    | error e1 =>
      simp only [htcc] at h
      rw [← Except.error.inj h]
      exact ((htc c).2 e1 htcc).1
    | ok vc =>
      obtain ⟨v, c1⟩ := vc
      simp only [htcc] at h
      cases hrec : decode_transition_times tc n c1 with
      | error e1 =>
        simp only [hrec] at h
        rw [← Except.error.inj h]
        exact ih c1 e1 hrec
      | ok lc =>
        obtain ⟨ts, c2⟩ := lc
        simp only [hrec] at h
        cases h

theorem decode_transition_times_eof {w : Nat} {tc : Cursor → Except Fail (Int × Cursor)}
    (htc : readsW w tc) (n : Nat) (c : Cursor)
    (h : c.buf.length < c.pos + w * n + w) :
    decode_transition_times tc (n + 1) c = .error .eof := by
  cases hres : decode_transition_times tc (n + 1) c with
  | ok lc =>
    obtain ⟨l, c'⟩ := lc
    exact absurd (decode_transition_times_ok_inv htc n c l c' hres) (by omega)
  | error e =>
    rw [decode_transition_times_error_inv htc (n + 1) c e hres]

theorem decode_transition_types_ok_inv :
    ∀ (n : Nat) (c : Cursor) (l : List Nat) (c' : Cursor),
      decode_transition_types (n + 1) c = .ok (l, c') →
      c.pos + n + 1 ≤ c.buf.length := by
  intro n
  induction n with
  | zero =>
    intro c l c' h
    rw [decode_transition_types_succ] at h
    cases hu : readU8 c with
    | error e => simp only [hu] at h; cases h
    | ok vc =>
      obtain ⟨b, c1⟩ := vc
      obtain ⟨hlt, rfl⟩ := readU8_ok_inv hu
      omega
  | succ n ih =>
    intro c l c' h
    rw [decode_transition_types_succ] at h
    cases hu : readU8 c with
    | error e => simp only [hu] at h; cases h
    | ok vc =>
      obtain ⟨b, c1⟩ := vc
      obtain ⟨hlt, rfl⟩ := readU8_ok_inv hu
      simp only [hu] at h
      cases hrec : decode_transition_types (n + 1) ⟨c.buf, c.pos + 1⟩ with
      | error e => simp only [hrec] at h; cases h
      | ok lc =>
        obtain ⟨bs, c2⟩ := lc
        have hih : c.pos + 1 + n + 1 ≤ c.buf.length := ih ⟨c.buf, c.pos + 1⟩ bs c2 hrec
        omega

theorem decode_transition_types_error_inv :
    ∀ (n : Nat) (c : Cursor) (e : Fail),
      decode_transition_types n c = .error e → e = .eof := by
  intro n
  induction n with
  | zero => intro c e h; cases h
  | succ n ih =>
    intro c e h
    rw [decode_transition_types_succ] at h
    cases hu : readU8 c with
    | error e1 =>
      simp only [hu] at h
      rw [← Except.error.inj h]
      exact (readU8_error_inv hu).1
    | ok vc =>
      obtain ⟨b, c1⟩ := vc
      simp only [hu] at h
      cases hrec : decode_transition_types n c1 with
      | error e1 =>
        simp only [hrec] at h
        rw [← Except.error.inj h]
        exact ih c1 e1 hrec
      | ok lc =>
        obtain ⟨bs, c2⟩ := lc
        simp only [hrec] at h
        cases h

theorem decode_transition_types_eof (n : Nat) (c : Cursor)
    (h : c.buf.length < c.pos + n + 1) :
    decode_transition_types (n + 1) c = .error .eof := by
  cases hres : decode_transition_types (n + 1) c with
  | ok lc =>
    obtain ⟨l, c'⟩ := lc
    exact absurd (decode_transition_types_ok_inv n c l c' hres) (by omega)
  | error e =>
    rw [decode_transition_types_error_inv (n + 1) c e hres]

theorem decode_transition_flags1_ok_inv :
    ∀ (n : Nat) (c : Cursor) (l : List TransitionTimeFlag) (c' : Cursor),
      decode_transition_flags1 (n + 1) c = .ok (l, c') →
      c.pos + n + 1 ≤ c.buf.length := by
  intro n
  induction n with
  | zero =>
    intro c l c' h
    rw [decode_transition_flags1_succ] at h
    cases hu : readU8 c with
    | error e => simp only [hu] at h; cases h
    | ok vc =>
      obtain ⟨b, c1⟩ := vc
      obtain ⟨hlt, rfl⟩ := readU8_ok_inv hu
      omega
  | succ n ih =>
    intro c l c' h
    rw [decode_transition_flags1_succ] at h
    cases hu : readU8 c with
    | error e => simp only [hu] at h; cases h
    | ok vc =>
      obtain ⟨b, c1⟩ := vc
      obtain ⟨hlt, rfl⟩ := readU8_ok_inv hu
      simp only [hu] at h
      cases hrec : decode_transition_flags1 (n + 1) ⟨c.buf, c.pos + 1⟩ with
      | error e => simp only [hrec] at h; cases h
      | ok lc =>
        obtain ⟨fs, c2⟩ := lc
        have hih : c.pos + 1 + n + 1 ≤ c.buf.length := ih ⟨c.buf, c.pos + 1⟩ fs c2 hrec
        omega

theorem decode_transition_flags1_error_inv :
    ∀ (n : Nat) (c : Cursor) (e : Fail),
      decode_transition_flags1 n c = .error e → e = .eof := by
  intro n
  induction n with
  | zero => intro c e h; cases h
  | succ n ih =>
    intro c e h
    rw [decode_transition_flags1_succ] at h
    cases hu : readU8 c with
    | error e1 =>
      simp only [hu] at h
      rw [← Except.error.inj h]
      exact (readU8_error_inv hu).1
    | ok vc =>
      obtain ⟨b, c1⟩ := vc
      simp only [hu] at h
      cases hrec : decode_transition_flags1 n c1 with
      | error e1 =>
        simp only [hrec] at h
        rw [← Except.error.inj h]
        exact ih c1 e1 hrec
      | ok lc =>
        obtain ⟨fs, c2⟩ := lc
        simp only [hrec] at h
        cases h

theorem decode_transition_flags1_eof (n : Nat) (c : Cursor)
    (h : c.buf.length < c.pos + n + 1) :
    decode_transition_flags1 (n + 1) c = .error .eof := by
  cases hres : decode_transition_flags1 (n + 1) c with
  | ok lc =>
    obtain ⟨l, c'⟩ := lc
    exact absurd (decode_transition_flags1_ok_inv n c l c' hres) (by omega)
  | error e =>
    rw [decode_transition_flags1_error_inv (n + 1) c e hres]

theorem decode_transition_flags2_ok_inv :
    ∀ (n : Nat) (c : Cursor) (l : List TransitionTimeFlag) (c' : Cursor),
      decode_transition_flags2 (n + 1) c = .ok (l, c') →
      c.pos + n + 1 ≤ c.buf.length := by
  intro n
  induction n with
  | zero =>
    intro c l c' h
    rw [decode_transition_flags2_succ] at h
    cases hu : readU8 c with
    | error e => simp only [hu] at h; cases h
    | ok vc =>
      obtain ⟨b, c1⟩ := vc
      obtain ⟨hlt, rfl⟩ := readU8_ok_inv hu
      omega
  | succ n ih =>
    intro c l c' h
    rw [decode_transition_flags2_succ] at h
    cases hu : readU8 c with
    | error e => simp only [hu] at h; cases h
    | ok vc =>
      obtain ⟨b, c1⟩ := vc
      obtain ⟨hlt, rfl⟩ := readU8_ok_inv hu
      simp only [hu] at h
      cases hrec : decode_transition_flags2 (n + 1) ⟨c.buf, c.pos + 1⟩ with
      | error e => simp only [hrec] at h; cases h
      | ok lc =>
        obtain ⟨fs, c2⟩ := lc
        have hih : c.pos + 1 + n + 1 ≤ c.buf.length := ih ⟨c.buf, c.pos + 1⟩ fs c2 hrec
        omega

theorem decode_transition_flags2_error_inv :
    ∀ (n : Nat) (c : Cursor) (e : Fail),
      decode_transition_flags2 n c = .error e → e = .eof := by
  intro n
  induction n with
  | zero => intro c e h; cases h
  | succ n ih =>
    intro c e h
    rw [decode_transition_flags2_succ] at h
    cases hu : readU8 c with
    | error e1 =>
      simp only [hu] at h
      rw [← Except.error.inj h]
      exact (readU8_error_inv hu).1
    | ok vc =>
      obtain ⟨b, c1⟩ := vc
      simp only [hu] at h
      cases hrec : decode_transition_flags2 n c1 with
      | error e1 =>
        simp only [hrec] at h
        rw [← Except.error.inj h]
        exact ih c1 e1 hrec
      | ok lc =>
        obtain ⟨fs, c2⟩ := lc
        simp only [hrec] at h
        cases h

theorem decode_transition_flags2_eof (n : Nat) (c : Cursor)
    (h : c.buf.length < c.pos + n + 1) :
    decode_transition_flags2 (n + 1) c = .error .eof := by
  cases hres : decode_transition_flags2 (n + 1) c with
  | ok lc =>
    obtain ⟨l, c'⟩ := lc
    exact absurd (decode_transition_flags2_ok_inv n c l c' hres) (by omega)
  | error e =>
    rw [decode_transition_flags2_error_inv (n + 1) c e hres]

theorem decode_leap_second_corrections_ok_inv {w : Nat}
    {tc : Cursor → Except Fail (Int × Cursor)} (htc : readsW w tc) :
    ∀ (n : Nat) (c : Cursor) (l : List (Int × Int)) (c' : Cursor),
      decode_leap_second_corrections tc (n + 1) c = .ok (l, c') →
      c.pos + (w + 4) * n + (w + 4) ≤ c.buf.length := by
  intro n
  induction n with
  | zero =>
    intro c l c' h
    rw [decode_leap_second_corrections_succ] at h
    cases htcc : tc c with
    | error e => simp only [htcc] at h; cases h
    | ok vc =>
      obtain ⟨v, c1⟩ := vc
      obtain ⟨hle, rfl⟩ := (htc c).1 v c1 htcc
      simp only [htcc] at h
      cases hi : readI32 ⟨c.buf, c.pos + w⟩ with
      | error e => simp only [hi] at h; cases h
      | ok vc2 =>
        obtain ⟨s, c2⟩ := vc2
        obtain ⟨hle2, rfl⟩ := readI32_ok_inv hi
        have hred : c.pos + w + 4 ≤ c.buf.length := hle2
        omega
  | succ n ih =>
    intro c l c' h
    rw [decode_leap_second_corrections_succ] at h
    cases htcc : tc c with
    | error e => simp only [htcc] at h; cases h
    | ok vc =>
      obtain ⟨v, c1⟩ := vc
      obtain ⟨hle, rfl⟩ := (htc c).1 v c1 htcc
      simp only [htcc] at h
      cases hi : readI32 ⟨c.buf, c.pos + w⟩ with
      | error e => simp only [hi] at h; cases h
      | ok vc2 =>
        obtain ⟨s, c2⟩ := vc2
        obtain ⟨hle2, rfl⟩ := readI32_ok_inv hi
        simp only [hi] at h
        cases hrec : decode_leap_second_corrections tc (n + 1)
            ⟨c.buf, c.pos + w + 4⟩ with
        | error e => simp only [hrec] at h; cases h
        | ok lc =>
          obtain ⟨ls, c3⟩ := lc
          have hih : c.pos + w + 4 + (w + 4) * n + (w + 4) ≤ c.buf.length :=
            ih ⟨c.buf, c.pos + w + 4⟩ ls c3 hrec
          rw [Nat.mul_succ]
          omega

theorem decode_leap_second_corrections_error_inv {w : Nat}
    {tc : Cursor → Except Fail (Int × Cursor)} (htc : readsW w tc) :
    ∀ (n : Nat) (c : Cursor) (e : Fail),
      decode_leap_second_corrections tc n c = .error e → e = .eof := by
  intro n
  induction n with
  | zero => intro c e h; cases h
  | succ n ih =>
    intro c e h
    rw [decode_leap_second_corrections_succ] at h
    cases htcc : tc c with
    | error e1 =>
      simp only [htcc] at h
      rw [← Except.error.inj h]
      exact ((htc c).2 e1 htcc).1
    | ok vc =>
      obtain ⟨v, c1⟩ := vc
      simp only [htcc] at h
      cases hi : readI32 c1 with
      | error e1 =>
        simp only [hi] at h
        rw [← Except.error.inj h]
        exact (readI32_error_inv hi).1
      | ok vc2 =>
        obtain ⟨s, c2⟩ := vc2
        simp only [hi] at h
        cases hrec : decode_leap_second_corrections tc n c2 with
        | error e1 =>
          simp only [hrec] at h
          rw [← Except.error.inj h]
          exact ih c2 e1 hrec
        | ok lc =>
          obtain ⟨ls, c3⟩ := lc
          simp only [hrec] at h
          cases h

theorem decode_leap_second_corrections_eof {w : Nat}
    {tc : Cursor → Except Fail (Int × Cursor)} (htc : readsW w tc)
    (n : Nat) (c : Cursor)
    (h : c.buf.length < c.pos + (w + 4) * n + (w + 4)) :
    decode_leap_second_corrections tc (n + 1) c = .error .eof := by
  cases hres : decode_leap_second_corrections tc (n + 1) c with
  | ok lc =>
    obtain ⟨l, c'⟩ := lc
    exact absurd (decode_leap_second_corrections_ok_inv htc n c l c' hres) (by omega)
  | error e =>
    rw [decode_leap_second_corrections_error_inv htc (n + 1) c e hres]

theorem decodeLocalRaw_ok_inv :
    ∀ (n : Nat) (c : Cursor) (raw : List (Int × Nat × Nat)) (c' : Cursor),
      decodeLocalRaw (n + 1) c = .ok (raw, c') →
      c.pos + 6 * n + 6 ≤ c.buf.length := by
  intro n
  induction n with
  | zero =>
    intro c raw c' h
    rw [decodeLocalRaw_succ] at h
    cases hi : readI32 c with
    | error e => simp only [hi] at h; cases h
    | ok vc =>
      obtain ⟨off, c1⟩ := vc
      obtain ⟨h4, rfl⟩ := readI32_ok_inv hi
      simp only [hi] at h
      cases hu1 : readU8 ⟨c.buf, c.pos + 4⟩ with
      | error e => simp only [hu1] at h; cases h
      | ok vc2 =>
        obtain ⟨dst, c2⟩ := vc2
        obtain ⟨h5, rfl⟩ := readU8_ok_inv hu1
        simp only [hu1] at h
        cases hu2 : readU8 ⟨c.buf, c.pos + 4 + 1⟩ with
        | error e => simp only [hu2] at h; cases h
        | ok vc3 =>
          obtain ⟨idx, c3⟩ := vc3
          obtain ⟨h6, rfl⟩ := readU8_ok_inv hu2
          have hred : c.pos + 4 + 1 < c.buf.length := h6
          omega
  | succ n ih =>
    intro c raw c' h
    rw [decodeLocalRaw_succ] at h
    cases hi : readI32 c with
    | error e => simp only [hi] at h; cases h
    | ok vc =>
      obtain ⟨off, c1⟩ := vc
      obtain ⟨h4, rfl⟩ := readI32_ok_inv hi
      simp only [hi] at h
      cases hu1 : readU8 ⟨c.buf, c.pos + 4⟩ with
      | error e => simp only [hu1] at h; cases h
      | ok vc2 =>
        obtain ⟨dst, c2⟩ := vc2
        obtain ⟨h5, rfl⟩ := readU8_ok_inv hu1
        simp only [hu1] at h
        cases hu2 : readU8 ⟨c.buf, c.pos + 4 + 1⟩ with
        | error e => simp only [hu2] at h; cases h
        | ok vc3 =>
          obtain ⟨idx, c3⟩ := vc3
          obtain ⟨h6, rfl⟩ := readU8_ok_inv hu2
          simp only [hu2] at h
          cases hrec : decodeLocalRaw (n + 1) ⟨c.buf, c.pos + 4 + 1 + 1⟩ with
          | error e => simp only [hrec] at h; cases h
          | ok lc =>
            obtain ⟨rest, c4⟩ := lc
            have hih : c.pos + 4 + 1 + 1 + 6 * n + 6 ≤ c.buf.length :=
              ih ⟨c.buf, c.pos + 4 + 1 + 1⟩ rest c4 hrec
            rw [Nat.mul_succ]
            omega

theorem decodeLocalRaw_error_inv :
    ∀ (n : Nat) (c : Cursor) (e : Fail),
      decodeLocalRaw n c = .error e → e = .eof := by
  intro n
  induction n with
  | zero => intro c e h; cases h
  | succ n ih =>
    intro c e h
    rw [decodeLocalRaw_succ] at h
    cases hi : readI32 c with
    | error e1 =>
      simp only [hi] at h
      rw [← Except.error.inj h]
      exact (readI32_error_inv hi).1
    | ok vc =>
      obtain ⟨off, c1⟩ := vc
      simp only [hi] at h
      cases hu1 : readU8 c1 with
      | error e1 =>
        simp only [hu1] at h
        rw [← Except.error.inj h]
        exact (readU8_error_inv hu1).1
      | ok vc2 =>
        obtain ⟨dst, c2⟩ := vc2
        simp only [hu1] at h
        cases hu2 : readU8 c2 with
        | error e1 =>
          simp only [hu2] at h
          rw [← Except.error.inj h]
          exact (readU8_error_inv hu2).1
        | ok vc3 =>
          obtain ⟨idx, c3⟩ := vc3
          simp only [hu2] at h
          cases hrec : decodeLocalRaw n c3 with
          | error e1 =>
            simp only [hrec] at h
            rw [← Except.error.inj h]
            exact ih c3 e1 hrec
          | ok lc =>
            obtain ⟨rest, c4⟩ := lc
            simp only [hrec] at h
            cases h

theorem decodeLocalRaw_eof (n : Nat) (c : Cursor)
    (h : c.buf.length < c.pos + 6 * n + 6) :
    decodeLocalRaw (n + 1) c = .error .eof := by
  cases hres : decodeLocalRaw (n + 1) c with
  | ok lc =>
    obtain ⟨raw, c'⟩ := lc
    exact absurd (decodeLocalRaw_ok_inv n c raw c' hres) (by omega)
  | error e =>
    rw [decodeLocalRaw_error_inv (n + 1) c e hres]

theorem decodeLocalRaw_eof_inv :
    ∀ (n : Nat) (c : Cursor), decodeLocalRaw n c = .error .eof →
      c.buf.length < c.pos + 6 * n := by
  intro n
  induction n with
  | zero => intro c h; cases h
  | succ n ih =>
    intro c h
    rw [Nat.mul_succ]
    rw [decodeLocalRaw_succ] at h
    cases hi : readI32 c with
    | error e1 =>
      obtain ⟨-, hlen⟩ := readI32_error_inv hi
      omega
    | ok vc =>
      obtain ⟨off, c1⟩ := vc
      obtain ⟨h4, rfl⟩ := readI32_ok_inv hi
      simp only [hi] at h
      cases hu1 : readU8 ⟨c.buf, c.pos + 4⟩ with
      | error e1 =>
        obtain ⟨-, hlen⟩ := readU8_error_inv hu1
        have hred : c.buf.length ≤ c.pos + 4 := hlen
        omega
      | ok vc2 =>
        obtain ⟨dst, c2⟩ := vc2
        obtain ⟨h5, rfl⟩ := readU8_ok_inv hu1
        simp only [hu1] at h
        cases hu2 : readU8 ⟨c.buf, c.pos + 4 + 1⟩ with
        | error e1 =>
          obtain ⟨-, hlen⟩ := readU8_error_inv hu2
          have hred : c.buf.length ≤ c.pos + 4 + 1 := hlen
          omega
        | ok vc3 =>
          obtain ⟨idx, c3⟩ := vc3
          obtain ⟨h6, rfl⟩ := readU8_ok_inv hu2
          simp only [hu2] at h
          cases hrec : decodeLocalRaw n ⟨c.buf, c.pos + 4 + 1 + 1⟩ with
          | error e1 =>
            simp only [hrec] at h
            have he1 : e1 = .eof := Except.error.inj h
            rw [he1] at hrec
            have hih : c.buf.length < c.pos + 4 + 1 + 1 + 6 * n :=
              ih ⟨c.buf, c.pos + 4 + 1 + 1⟩ hrec
            omega
          | ok lc =>
            obtain ⟨rest, c4⟩ := lc
            simp only [hrec] at h
            cases h

theorem mkTzTypes_error_crash {charbuf : List Nat} :
    ∀ {raw : List (Int × Nat × Nat)} {e : Fail},
      mkTzTypes charbuf raw = .error e → e = .crash := by
  intro raw
  induction raw with
  | nil => intro e h; cases h
  | cons a rest ih =>
    intro e h
    obtain ⟨off, dst, idx⟩ := a
    simp only [mkTzTypes] at h
    by_cases hv : isValidUtf8 (abbrevOf charbuf idx)
    · rw [if_pos hv] at h
      cases hmk : mkTzTypes charbuf rest with
      | error e1 =>
        rw [hmk] at h
        rw [← Except.error.inj h]
        exact ih hmk
      | ok ts => rw [hmk] at h; cases h
    · rw [if_neg hv] at h
      exact (Except.error.inj h).symm

theorem decode_local_time_data_eof (n k : Nat) (c : Cursor)
    (h : c.buf.length < c.pos + 6 * n + 6) :
    decode_local_time_data (n + 1) k c = .error .eof := by
  simp only [decode_local_time_data, decodeLocalRaw_eof n c h]

theorem decode_local_time_data_ne_eof (n k : Nat) (c : Cursor)
    (h : c.pos + 6 * n ≤ c.buf.length) :
    decode_local_time_data n k c ≠ .error .eof := by
  intro hcon
  simp only [decode_local_time_data] at hcon
  cases hraw : decodeLocalRaw n c with
  | error e =>
    rw [hraw] at hcon
    have he : e = .eof := Except.error.inj hcon
    rw [he] at hraw
    exact absurd (decodeLocalRaw_eof_inv n c hraw) (by omega)
  | ok rawc =>
    obtain ⟨raw, c1⟩ := rawc
    simp only [hraw] at hcon
    cases hmk : mkTzTypes (readPadded k c1).1 raw with
    | error e =>
      simp only [hmk] at hcon
      have he : e = .eof := Except.error.inj hcon
      rw [he] at hmk
      exact absurd (mkTzTypes_error_crash hmk) (by simp)
    | ok ts =>
      simp only [hmk] at hcon
      cases hcon

/-! The claims. -/

/-- Claim C1: for every ZoneInfo whose transitions map is computed without
a panic, and every timestamp `t`, `get_actual_zoneinfo t` returns the record
of the map entry with the greatest instant strictly less than `t`
(predecessor search), and returns `none` exactly when no transition instant
is strictly less than `t` (i.e. when `t` precedes every transition). -/
theorem claim_C1 (z : ZoneInfo) (m : List (Int × ZoneInfoElement)) (t : Int)
    (h : get_transitions z = .ok m) :
    (get_actual_zoneinfo z t = .ok none ↔ ∀ p ∈ m, ¬ p.1 < t) ∧
    (∀ r, get_actual_zoneinfo z t = .ok (some r) →
      ∃ k, (k, r) ∈ m ∧ k < t ∧ ∀ p ∈ m, p.1 < t → p.1 ≤ k) ∧
    ((∃ p ∈ m, p.1 < t) → ∃ r, get_actual_zoneinfo z t = .ok (some r)) := by
  have hs : m.Pairwise keyLt := transitionsGo_pairwise List.Pairwise.nil h
  have hq : get_actual_zoneinfo z t =
      .ok (((m.takeWhile (fun p => decide (p.1 < t))).getLast?).map Prod.snd) := by
    simp only [get_actual_zoneinfo, h]
  refine ⟨?_, ?_, ?_⟩
  · rw [hq]
    constructor
    · intro he
      have hm := Except.ok.inj he
      rw [Option.map_eq_none'] at hm
      exact (predNone hs t).mp hm
    · intro hall
      rw [(predNone hs t).mpr hall]
      rfl
  · intro r hr
    rw [hq] at hr
    have hmap := Except.ok.inj hr
    rw [Option.map_eq_some'] at hmap
    obtain ⟨q, hq1, hq2⟩ := hmap
    obtain ⟨hm, hlt, hmax⟩ := predSome hs hq1
    obtain ⟨k, v⟩ := q
    have hv : v = r := hq2
    subst hv
    exact ⟨k, hm, hlt, hmax⟩
  · rintro ⟨p, hp, hpt⟩
    cases hL : (m.takeWhile (fun p => decide (p.1 < t))).getLast? with
    | none => exact absurd hpt ((predNone hs t).mp hL p hp)
    | some q =>
      refine ⟨q.2, ?_⟩
      rw [hq, hL]
      rfl

/-- Claim C1 witness at the concrete zone `exZone` and timestamp 150. -/
theorem claim_C1_witness :
    (get_actual_zoneinfo exZone 150 = .ok none ↔ ∀ p ∈ exMap, ¬ p.1 < 150) ∧
    (∀ r, get_actual_zoneinfo exZone 150 = .ok (some r) →
      ∃ k, (k, r) ∈ exMap ∧ k < 150 ∧ ∀ p ∈ exMap, p.1 < 150 → p.1 ≤ k) ∧
    ((∃ p ∈ exMap, p.1 < 150) → ∃ r, get_actual_zoneinfo exZone 150 = .ok (some r)) :=
  claim_C1 exZone exMap 150 (by decide)

/-- Claim C2: for every ZoneInfo whose transitions map is computed without
a panic, and every timestamp `t`, `get_next_transition_time t` returns the
(instant, record) entry with the earliest instant that is ≥ `t` (so a
present result always has instant ≥ `t`), and returns `none` exactly when
no transition instant is ≥ `t`. -/
theorem claim_C2 (z : ZoneInfo) (m : List (Int × ZoneInfoElement)) (t : Int)
    (h : get_transitions z = .ok m) :
    (get_next_transition_time z t = .ok none ↔ ∀ p ∈ m, p.1 < t) ∧
    (∀ k r, get_next_transition_time z t = .ok (some (k, r)) →
      (k, r) ∈ m ∧ t ≤ k ∧ ∀ p ∈ m, t ≤ p.1 → k ≤ p.1) ∧
    ((∃ p ∈ m, t ≤ p.1) →
      ∃ k r, get_next_transition_time z t = .ok (some (k, r)) ∧ t ≤ k) := by
  have hs : m.Pairwise keyLt := transitionsGo_pairwise List.Pairwise.nil h
  have hq : get_next_transition_time z t =
      .ok ((m.dropWhile (fun p => decide (p.1 < t))).head?) := by
    simp only [get_next_transition_time, h]
  refine ⟨?_, ?_, ?_⟩
  · rw [hq]
    constructor
    · intro he
      exact (succNone m t).mp (Except.ok.inj he)
    · intro hall
      rw [(succNone m t).mpr hall]
  · intro k r hr
    rw [hq] at hr
    obtain ⟨hm, hnl, hmin⟩ := succSome hs (Except.ok.inj hr)
    exact ⟨hm, not_lt.mp hnl, fun p hp hpt => hmin p hp (not_lt.mpr hpt)⟩
  · rintro ⟨p, hp, hpt⟩
    cases hL : (m.dropWhile (fun p => decide (p.1 < t))).head? with
    | none => exact absurd ((succNone m t).mp hL p hp) (not_lt.mpr hpt)
    | some q =>
      obtain ⟨hm, hnl, -⟩ := succSome hs hL
      refine ⟨q.1, q.2, ?_, not_lt.mp hnl⟩
      rw [hq, hL]

/-- Claim C2 witness at the concrete zone `exZone` and timestamp 150. -/
theorem claim_C2_witness :
    (get_next_transition_time exZone 150 = .ok none ↔ ∀ p ∈ exMap, p.1 < 150) ∧
    (∀ k r, get_next_transition_time exZone 150 = .ok (some (k, r)) →
      (k, r) ∈ exMap ∧ 150 ≤ k ∧ ∀ p ∈ exMap, 150 ≤ p.1 → k ≤ p.1) ∧
    ((∃ p ∈ exMap, 150 ≤ p.1) →
      ∃ k r, get_next_transition_time exZone 150 = .ok (some (k, r)) ∧ 150 ≤ k) :=
  claim_C2 exZone exMap 150 (by decide)

/-- Claim C8 counterexample: for the parsed zone with transitions at 999 and
1000, taking the exact transition instant T = 1000 (which has a transition
strictly before it), `get_next_transition_time (T-1)` selects instant 999,
not T, and `get_actual_zoneinfo T` returns the record stored at 999, which
differs from the record of the transition at instant T — so neither selected
instant equals T as the claim states. -/
theorem claim_C8_counterexample :
    read_zone_info consume_32bit_timestamps ⟨bufC8, 0⟩ = .ok (innerC8, ⟨bufC8, 72⟩) ∧
    get_transitions ⟨innerC8, []⟩ = .ok [(999, elemC8a), (1000, elemC8b)] ∧
    get_next_transition_time ⟨innerC8, []⟩ (1000 - 1) = .ok (some (999, elemC8a)) ∧
    (999 : Int) ≠ 1000 ∧
    get_actual_zoneinfo ⟨innerC8, []⟩ 1000 = .ok (some elemC8a) ∧
    elemC8a ≠ elemC8b := by decide

/-- Claim C8 amended: at an exact transition instant `T` of the map (with
some transition strictly before it), `get_next_transition_time T` has
instant exactly `T`; `get_next_transition_time (T-1)` has instant `T`
provided `T-1` is not itself a transition instant; and the predecessor
query selects `T` only strictly afterwards: `get_actual_zoneinfo T` returns
the record of the greatest instant strictly below `T`, while
`get_actual_zoneinfo (T+1)` returns the record stored at `T`. -/
theorem claim_C8 (z : ZoneInfo) (m : List (Int × ZoneInfoElement)) (T : Int)
    (r : ZoneInfoElement) (h : get_transitions z = .ok m) (hTm : (T, r) ∈ m)
    (hbefore : ∃ p ∈ m, p.1 < T) :
    get_next_transition_time z T = .ok (some (T, r)) ∧
    ((∀ p ∈ m, p.1 ≠ T - 1) → get_next_transition_time z (T - 1) = .ok (some (T, r))) ∧
    (∃ k' r', get_actual_zoneinfo z T = .ok (some r') ∧ (k', r') ∈ m ∧ k' < T ∧
      ∀ p ∈ m, p.1 < T → p.1 ≤ k') ∧
    get_actual_zoneinfo z (T + 1) = .ok (some r) := by
  have hs : m.Pairwise keyLt := transitionsGo_pairwise List.Pairwise.nil h
  have hqn : ∀ t : Int, get_next_transition_time z t =
      .ok ((m.dropWhile (fun p => decide (p.1 < t))).head?) := by
    intro t
    simp only [get_next_transition_time, h]
  have hqa : ∀ t : Int, get_actual_zoneinfo z t =
      .ok (((m.takeWhile (fun p => decide (p.1 < t))).getLast?).map Prod.snd) := by
    intro t
    simp only [get_actual_zoneinfo, h]
  refine ⟨?_, ?_, ?_, ?_⟩
  · cases hL : (m.dropWhile (fun p => decide (p.1 < T))).head? with
    | none => exact absurd ((succNone m T).mp hL (T, r) hTm) (lt_irrefl T)
    | some q =>
      obtain ⟨hqm, hnl, hmin⟩ := succSome hs hL
      have h1 : q.1 ≤ T := hmin (T, r) hTm (lt_irrefl T)
      have h2 : T ≤ q.1 := not_lt.mp hnl
      obtain ⟨k, v⟩ := q
      have hkT : k = T := le_antisymm h1 h2
      have hv : v = r := by
        rw [hkT] at hqm
        exact keyUnique hs hqm hTm
      rw [hqn T, hL, hkT, hv]
  · intro hno
    cases hL : (m.dropWhile (fun p => decide (p.1 < T - 1))).head? with
    | none =>
      exact absurd ((succNone m (T - 1)).mp hL (T, r) hTm) (show ¬ (T : Int) < T - 1 by omega)
    | some q =>
      obtain ⟨hqm, hnl, hmin⟩ := succSome hs hL
      have h2 : T - 1 ≤ q.1 := not_lt.mp hnl
      have hne : q.1 ≠ T - 1 := hno q hqm
      have h1 : q.1 ≤ T := hmin (T, r) hTm (show ¬ (T : Int) < T - 1 by omega)
      obtain ⟨k, v⟩ := q
      have hkT : k = T := by
        have h2' : T - 1 ≤ k := h2
        have hne' : k ≠ T - 1 := hne
        have h1' : k ≤ T := h1
        omega
      have hv : v = r := by
        rw [hkT] at hqm
        exact keyUnique hs hqm hTm
      rw [hqn (T - 1), hL, hkT, hv]
  · obtain ⟨p0, hp0, hp0t⟩ := hbefore
    cases hL : (m.takeWhile (fun p => decide (p.1 < T))).getLast? with
    | none => exact absurd hp0t ((predNone hs T).mp hL p0 hp0)
    | some q =>
      obtain ⟨hqm, hqt, hmax⟩ := predSome hs hL
      refine ⟨q.1, q.2, ?_, hqm, hqt, hmax⟩
      rw [hqa T, hL]
      rfl
  · cases hL : (m.takeWhile (fun p => decide (p.1 < T + 1))).getLast? with
    | none =>
      exact absurd (show (T : Int) < T + 1 by omega)
        ((predNone hs (T + 1)).mp hL (T, r) hTm)
    | some q =>
      obtain ⟨hqm, hqt, hmax⟩ := predSome hs hL
      have h1 : T ≤ q.1 := hmax (T, r) hTm (show (T : Int) < T + 1 by omega)
      obtain ⟨k, v⟩ := q
      have hkT : k = T := by
        have hqt' : k < T + 1 := hqt
        have h1' : T ≤ k := h1
        omega
      have hv : v = r := by
        rw [hkT] at hqm
        exact keyUnique hs hqm hTm
      rw [hqa (T + 1), hL]
      simp [hv]

/-- Claim C8 witness at the concrete zone `exZone`, instant T = 200. -/
theorem claim_C8_witness :
    get_next_transition_time exZone 200 = .ok (some (200, exElemB)) ∧
    ((∀ p ∈ exMap, p.1 ≠ 200 - 1) →
      get_next_transition_time exZone (200 - 1) = .ok (some (200, exElemB))) ∧
    (∃ k' r', get_actual_zoneinfo exZone 200 = .ok (some r') ∧ (k', r') ∈ exMap ∧
      k' < 200 ∧ ∀ p ∈ exMap, p.1 < 200 → p.1 ≤ k') ∧
    get_actual_zoneinfo exZone (200 + 1) = .ok (some exElemB) :=
  claim_C8 exZone exMap 200 exElemB (by decide) (by decide)
    ⟨(100, exElemA), by decide, by decide⟩

/-- Claim C4 counterexample: a buffer with one transition of type index 0
but empty flag tables parses successfully, and `get_transitions` then
panics on the flag-array index instead of defaulting the flags to
WallClock/Local and returning normally. -/
theorem claim_C4_counterexample :
    read_zone_info consume_32bit_timestamps ⟨bufC4, 0⟩ = .ok (innerC4, ⟨bufC4, 57⟩) ∧
    innerC4.transision_types = [0] ∧
    innerC4.transition_flags1 = [] ∧
    innerC4.transition_flags2 = [] ∧
    get_transitions ⟨innerC4, []⟩ = .error .crash := by decide

/-- Claim C4 amended: `get_transitions` resolves each transition's std/wall
and UTC/local flags by indexing both flag arrays at the transition's type
index; when every type index is within the bounds of the local-time-type
table and of both flag arrays the call returns normally with the indexed
values, but an index beyond either flag array (or the type table) makes the
call panic — there is no defaulting to WallClock/Local. -/
theorem claim_C4 (z : ZoneInfo) :
    ((∀ p ∈ z.zone_info.transision_times.zip z.zone_info.transision_types,
        p.2 < z.zone_info.local_times.length ∧
        p.2 < z.zone_info.transition_flags1.length ∧
        p.2 < z.zone_info.transition_flags2.length) →
      ∃ m, get_transitions z = .ok m ∧
        ∀ q ∈ m, ∃ p ∈ z.zone_info.transision_times.zip z.zone_info.transision_types,
          p.1 = q.1 ∧ mkElem z.zone_info p.2 = .ok q.2) ∧
    ((∃ p ∈ z.zone_info.transision_times.zip z.zone_info.transision_types,
        ¬ (p.2 < z.zone_info.local_times.length ∧
           p.2 < z.zone_info.transition_flags1.length ∧
           p.2 < z.zone_info.transition_flags2.length)) →
      get_transitions z = .error .crash) := by
  constructor
  · intro hall
    obtain ⟨m, hm⟩ := transitionsGo_okExists
      (fun p hp => mkElem_ok_iff.mpr (hall p hp)) []
    refine ⟨m, hm, ?_⟩
    intro q hq
    rcases transitionsGo_mem hm q hq with hin | hex
    · cases hin
    · exact hex
  · rintro ⟨p, hp, hnb⟩
    apply transitionsGo_crash
    refine ⟨p, hp, ?_⟩
    cases hmk : mkElem z.zone_info p.2 with
    | ok el => exact absurd (mkElem_ok_iff.mp ⟨el, hmk⟩) hnb
    | error e =>
      rw [mkElem_error_crash hmk]

/-- Claim C4 witness at the concrete zone `exZone`, whose indices are all in
bounds. -/
theorem claim_C4_witness :
    ∃ m, get_transitions exZone = .ok m ∧
      ∀ q ∈ m, ∃ p ∈ exZone.zone_info.transision_times.zip
          exZone.zone_info.transision_types,
        p.1 = q.1 ∧ mkElem exZone.zone_info p.2 = .ok q.2 :=
  (claim_C4 exZone).1 (by decide)

/-- Claim C9: when the legacy (4-byte) body decode and the wide (8-byte)
body decode of a version-2/3 file yield the same transition, type,
local-time-type and flag tables, every query agrees between the two bodies,
so the body-selection step does not change query results for such files.
The witness instantiates this at a synthetic version-2 file with one
transition at timestamp 1000 in both bodies. -/
theorem claim_C9 (buf : List Nat) (b32 b64 : ZoneInfoInner) (c1 c2 : Cursor)
    (h32 : read_zone_info consume_32bit_timestamps ⟨buf, 0⟩ = .ok (b32, c1))
    (h64 : read_zone_info consume_64bit_timestamps c1 = .ok (b64, c2))
    (ht : b32.transision_times = b64.transision_times)
    (hy : b32.transision_types = b64.transision_types)
    (hl : b32.local_times = b64.local_times)
    (hf1 : b32.transition_flags1 = b64.transition_flags1)
    (hf2 : b32.transition_flags2 = b64.transition_flags2) :
    ∀ tail1 tail2 : List Nat,
      get_transitions ⟨b32, tail1⟩ = get_transitions ⟨b64, tail2⟩ ∧
      ∀ t : Int, get_actual_zoneinfo ⟨b32, tail1⟩ t = get_actual_zoneinfo ⟨b64, tail2⟩ t ∧
        get_next_transition_time ⟨b32, tail1⟩ t =
          get_next_transition_time ⟨b64, tail2⟩ t := by
  intro tail1 tail2
  have hmk : ∀ i, mkElem b32 i = mkElem b64 i := mkElem_congr hl hf1 hf2
  have hgt : get_transitions ⟨b32, tail1⟩ = get_transitions ⟨b64, tail2⟩ := by
    simp only [get_transitions]
    rw [ht, hy]
    exact transitionsGo_congr hmk _ _
  refine ⟨hgt, ?_⟩
  intro t
  constructor
  · simp only [get_actual_zoneinfo, hgt]
  · simp only [get_next_transition_time, hgt]

/-- Claim C9 witness: the synthetic version-2 file `bufC9` decodes to the
same tables (`innerC9`) through both the legacy and the wide pass, and the
queries agree. -/
theorem claim_C9_witness :
    get_transitions ⟨innerC9, []⟩ = get_transitions ⟨innerC9, []⟩ ∧
    ∀ t : Int, get_actual_zoneinfo ⟨innerC9, []⟩ t = get_actual_zoneinfo ⟨innerC9, []⟩ t ∧
      get_next_transition_time ⟨innerC9, []⟩ t = get_next_transition_time ⟨innerC9, []⟩ t :=
  claim_C9 bufC9 innerC9 innerC9 ⟨bufC9, 61⟩ ⟨bufC9, 126⟩
    (by decide) (by decide) rfl rfl rfl rfl rfl [] []

/-- Claim C10: `get_transitions` keys its map by transition instant: the
map is strictly sorted by instant, the value stored at an instant is the
record resolved from the last zipped (time, type) pair in file order with
that instant (later duplicates overwrite earlier ones), and the map size
equals the number of distinct transition instants — which, as the concrete
parsed file `bufC10` with two transitions at instant 50 shows, can be
strictly smaller than the header's transition count. -/
theorem claim_C10 :
    (∀ (z : ZoneInfo) (m : List (Int × ZoneInfoElement)),
      get_transitions z = .ok m →
      z.zone_info.transision_times.length = z.zone_info.transision_types.length →
      m.Pairwise keyLt ∧
      (∀ k, lookupKey k m =
        match lastDup (z.zone_info.transision_times.zip z.zone_info.transision_types) k with
        | none => none
        | some p => (mkElem z.zone_info p.2).toOption) ∧
      m.length = z.zone_info.transision_times.dedup.length) ∧
    (read_zone_info consume_32bit_timestamps ⟨bufC10, 0⟩ = .ok (innerC10, ⟨bufC10, 64⟩) ∧
     get_transitions ⟨innerC10, []⟩ = .ok mapC10 ∧
     mapC10.length < innerC10.header.tzh_timecnt) := by
  constructor
  · intro z m h hlen
    have hs : m.Pairwise keyLt := transitionsGo_pairwise List.Pairwise.nil h
    refine ⟨hs, ?_, ?_⟩
    · intro k
      exact transitionsGo_lookup h k
    · have hnd : (m.map Prod.fst).Nodup := by
        have hp : (m.map Prod.fst).Pairwise (· < ·) := List.pairwise_map.mpr hs
        exact hp.imp (fun hab => ne_of_lt hab)
      have hmem : ∀ k : Int, k ∈ m.map Prod.fst ↔ k ∈ z.zone_info.transision_times := by
        intro k
        constructor
        · intro hk
          obtain ⟨q, hqm, hqk⟩ := List.mem_map.mp hk
          rcases transitionsGo_mem h q hqm with hin | ⟨p, hp, hpk, -⟩
          · cases hin
          · have hzin : p.1 ∈ (z.zone_info.transision_times.zip
                z.zone_info.transision_types).map Prod.fst :=
              List.mem_map.mpr ⟨p, hp, rfl⟩
            rw [List.map_fst_zip _ _ (le_of_eq hlen)] at hzin
            rw [hpk, hqk] at hzin
            exact hzin
        · intro hk
          have hkz : k ∈ (z.zone_info.transision_times.zip
              z.zone_info.transision_types).map Prod.fst := by
            rw [List.map_fst_zip _ _ (le_of_eq hlen)]
            exact hk
          obtain ⟨p, hpz, hpk⟩ := List.mem_map.mp hkz
          have hfin : p ∈ (z.zone_info.transision_times.zip
              z.zone_info.transision_types).filter (fun p' => decide (p'.1 = k)) :=
            List.mem_filter.mpr ⟨hpz, by simp [hpk]⟩
          have hfne : (z.zone_info.transision_times.zip
              z.zone_info.transision_types).filter (fun p' => decide (p'.1 = k)) ≠ [] := by
            intro hnil
            rw [hnil] at hfin
            cases hfin
          cases hld : lastDup (z.zone_info.transision_times.zip
              z.zone_info.transision_types) k with
          | none => exact absurd (List.getLast?_eq_none_iff.mp hld) hfne
          | some p1 =>
            have hp1f : p1 ∈ (z.zone_info.transision_times.zip
                z.zone_info.transision_types).filter (fun p' => decide (p'.1 = k)) :=
              List.mem_of_mem_getLast? hld
            have hp1l : p1 ∈ z.zone_info.transision_times.zip
                z.zone_info.transision_types := List.mem_of_mem_filter hp1f
            obtain ⟨el, hel⟩ := transitionsGo_allOk h p1 hp1l
            have hlk := transitionsGo_lookup h k
            simp only [hld] at hlk
            rw [hel] at hlk
            have hmm : (k, el) ∈ m := (mem_iff_lookupKey hs k el).mpr
              (by simpa [Except.toOption] using hlk)
            exact List.mem_map.mpr ⟨(k, el), hmm, rfl⟩
      calc m.length = (m.map Prod.fst).length := (List.length_map _ _).symm
        _ = (m.map Prod.fst).toFinset.card := (List.toFinset_card_of_nodup hnd).symm
        _ = z.zone_info.transision_times.toFinset.card := by
              congr 1
              ext x
              simp only [List.mem_toFinset]
              exact hmem x
        _ = z.zone_info.transision_times.dedup.toFinset.card := by
              congr 1
              ext x
              simp [List.mem_dedup]
        _ = z.zone_info.transision_times.dedup.length :=
              List.toFinset_card_of_nodup (List.nodup_dedup _)
  · exact ⟨by decide, by decide, by decide⟩

/-- Claim C10 witness at the concrete zone `exZone`. -/
theorem claim_C10_witness :
    exMap.Pairwise keyLt ∧
    (∀ k, lookupKey k exMap =
      match lastDup (exZone.zone_info.transision_times.zip
        exZone.zone_info.transision_types) k with
      | none => none
      | some p => (mkElem exZone.zone_info p.2).toOption) ∧
    exMap.length = exZone.zone_info.transision_times.dedup.length :=
  claim_C10.1 exZone exMap (by decide) (by decide)

theorem decodeLocalRaw_length :
    ∀ (n : Nat) (c : Cursor) (raw : List (Int × Nat × Nat)) (c' : Cursor),
      decodeLocalRaw n c = .ok (raw, c') → raw.length = n := by
  intro n
  induction n with
  | zero => intro c raw c' h; cases h; rfl
  | succ n ih =>
    intro c raw c' h
    rw [decodeLocalRaw_succ] at h
    cases hi : readI32 c with
    | error e => simp only [hi] at h; cases h
    | ok vc =>
      obtain ⟨off, c1⟩ := vc
      simp only [hi] at h
      cases hu1 : readU8 c1 with
      | error e => simp only [hu1] at h; cases h
      | ok vc2 =>
        obtain ⟨dst, c2⟩ := vc2
        simp only [hu1] at h
        cases hu2 : readU8 c2 with
        | error e => simp only [hu2] at h; cases h
        | ok vc3 =>
          obtain ⟨idx, c3⟩ := vc3
          simp only [hu2] at h
          cases hrec : decodeLocalRaw n c3 with
          | error e => simp only [hrec] at h; cases h
          | ok lc =>
            obtain ⟨rest, c4⟩ := lc
            simp only [hrec] at h
            cases h
            simp [ih c3 rest c' hrec]

theorem mkTzTypes_length {charbuf : List Nat} :
    ∀ {raw : List (Int × Nat × Nat)} {ts : List TzType},
      mkTzTypes charbuf raw = .ok ts → ts.length = raw.length := by
  intro raw
  induction raw with
  | nil => intro ts h; cases h; rfl
  | cons a rest ih =>
    intro ts h
    obtain ⟨off, dst, idx⟩ := a
    simp only [mkTzTypes] at h
    by_cases hv : isValidUtf8 (abbrevOf charbuf idx)
    · rw [if_pos hv] at h
      cases hmk : mkTzTypes charbuf rest with
      | error e => rw [hmk] at h; cases h
      | ok ts1 =>
        rw [hmk] at h
        cases h
        simp [ih hmk]
    · rw [if_neg hv] at h
      cases h

theorem decode_local_time_data_length {n k : Nat} {c : Cursor} {lt : List TzType}
    {c' : Cursor} (h : decode_local_time_data n k c = .ok (lt, c')) :
    lt.length = n := by
  simp only [decode_local_time_data] at h
  cases hraw : decodeLocalRaw n c with
  | error e => rw [hraw] at h; cases h
  | ok rawc =>
    obtain ⟨raw, c1⟩ := rawc
    simp only [hraw] at h
    cases hmk : mkTzTypes (readPadded k c1).1 raw with
    | error e => simp only [hmk] at h; cases h
    | ok ts =>
      simp only [hmk] at h
      cases h
      rw [mkTzTypes_length hmk, decodeLocalRaw_length n c raw c1 hraw]

/-- Claim C3 counterexample: a buffer with transition count 0 and one local
time type, but empty flag tables, parses with the synthesized sentinel
transition at the minimum instant — yet `get_actual_zoneinfo 500` panics
rather than returning the single type's offset/dst/abbreviation, because
the flag tables are indexed at the sentinel's type index 0. -/
theorem claim_C3_counterexample :
    read_zone_info consume_32bit_timestamps ⟨bufC3x, 0⟩ = .ok (innerC3x, ⟨bufC3x, 54⟩) ∧
    innerC3x.header.tzh_timecnt = 0 ∧
    innerC3x.header.tzh_typecnt = 1 ∧
    innerC3x.transision_times = [i64min] ∧
    innerC3x.transision_types = [0] ∧
    get_actual_zoneinfo ⟨innerC3x, []⟩ 500 = .error .crash := by decide

/-- Claim C3 amended: when the decoded header has transition count 0 and
local-time-type count 1, parsing synthesizes exactly one transition at the
minimum representable instant pointing at type index 0; provided both flag
tables are non-empty, `get_actual_zoneinfo` at any timestamp strictly above
the minimum instant returns this single type's offset, dst flag and
abbreviation (with the flags taken from slot 0 of the flag tables). -/
theorem claim_C3 (tc : Cursor → Except Fail (Int × Cursor)) (c : Cursor)
    (inner : ZoneInfoInner) (c' : Cursor) (tail : List Nat) (t : Int)
    (hp : read_zone_info tc c = .ok (inner, c'))
    (h0 : inner.header.tzh_timecnt = 0)
    (h1 : inner.header.tzh_typecnt = 1)
    (hg1 : inner.transition_flags1 ≠ [])
    (hg2 : inner.transition_flags2 ≠ [])
    (ht : i64min < t) :
    inner.transision_times = [i64min] ∧ inner.transision_types = [0] ∧
    get_actual_zoneinfo ⟨inner, tail⟩ t =
      .ok ((inner.local_times.get? 0).bind fun ty =>
           (inner.transition_flags1.get? 0).bind fun f1 =>
           (inner.transition_flags2.get? 0).map fun f2 =>
           { ut_offset := ty.ut_offset, isdst := ty.isdst,
             abbreviation := ty.abbreviation, wall_clock_or_standard := f1,
             local_or_universal_time := f2 }) := by
  simp only [read_zone_info] at hp
  cases hh : tzHeadNew c with
  | error e => simp only [hh] at hp; cases hp
  | ok hc =>
    obtain ⟨hdr, c1⟩ := hc
    simp only [hh] at hp
    cases htt : decode_transition_times tc hdr.tzh_timecnt c1 with
    | error e => simp only [htt] at hp; cases hp
    | ok ttc =>
      obtain ⟨tt, c2⟩ := ttc
      simp only [htt] at hp
      cases hty : decode_transition_types hdr.tzh_timecnt c2 with
      | error e => simp only [hty] at hp; cases hp
      | ok tyc =>
        obtain ⟨ty, c3⟩ := tyc
        simp only [hty] at hp
        cases hlt : decode_local_time_data hdr.tzh_typecnt hdr.tzh_charcnt c3 with
        | error e => simp only [hlt] at hp; cases hp
        | ok ltc =>
          obtain ⟨lt, c4⟩ := ltc
          simp only [hlt] at hp
          cases hls : decode_leap_second_corrections tc hdr.tzh_leapcnt c4 with
          | error e => simp only [hls] at hp; cases hp
          | ok lsc =>
            obtain ⟨ls, c5⟩ := lsc
            simp only [hls] at hp
            cases hfa : decode_transition_flags1 hdr.tzh_ttisstdcnt c5 with
            | error e => simp only [hfa] at hp; cases hp
            | ok f1c =>
              obtain ⟨f1, c6⟩ := f1c
              simp only [hfa] at hp
              cases hfb : decode_transition_flags2 hdr.tzh_ttigmtcnt c6 with
              | error e => simp only [hfb] at hp; cases hp
              | ok f2c =>
                obtain ⟨f2, c7⟩ := f2c
                simp only [hfb] at hp
                by_cases hcond : tt.length = 0 ∧ lt.length = 1
                · rw [if_pos hcond] at hp
                  cases hp
                  have h0a : hdr.tzh_timecnt = 0 := h0
                  have h1a : hdr.tzh_typecnt = 1 := h1
                  rw [h0a] at htt hty
                  simp only [decode_transition_times] at htt
                  simp only [decode_transition_types] at hty
                  cases htt
                  cases hty
                  have hlen : lt.length = 1 := by
                    rw [← h1a]
                    exact decode_local_time_data_length hlt
                  obtain ⟨ty0, rfl⟩ := List.length_eq_one.mp hlen
                  have hg1' : f1 ≠ [] := hg1
                  have hg2' : f2 ≠ [] := hg2
                  cases f1 with
                  | nil => exact absurd rfl hg1'
                  | cons g1 gs1 =>
                    cases f2 with
                    | nil => exact absurd rfl hg2'
                    | cons g2 gs2 =>
                      refine ⟨rfl, rfl, ?_⟩
                      simp [get_actual_zoneinfo, get_transitions, transitionsGo,
                            mkElem, expectIdx, insertSorted, ht]
                · rw [if_neg hcond] at hp
                  cases hp
                  have h0a : hdr.tzh_timecnt = 0 := h0
                  have h1a : hdr.tzh_typecnt = 1 := h1
                  rw [h0a] at htt
                  simp only [decode_transition_times] at htt
                  cases htt
                  have hlen : lt.length = 1 := by
                    rw [← h1a]
                    exact decode_local_time_data_length hlt
                  exact absurd ⟨rfl, hlen⟩ hcond

/-- Claim C3 witness at the concrete fixed-offset file `bufC3` (CET, with
one flag byte in each flag table) and timestamp 500. -/
theorem claim_C3_witness :
    innerC3.transision_times = [i64min] ∧ innerC3.transision_types = [0] ∧
    get_actual_zoneinfo ⟨innerC3, []⟩ 500 =
      .ok ((innerC3.local_times.get? 0).bind fun ty =>
           (innerC3.transition_flags1.get? 0).bind fun f1 =>
           (innerC3.transition_flags2.get? 0).map fun f2 =>
           { ut_offset := ty.ut_offset, isdst := ty.isdst,
             abbreviation := ty.abbreviation, wall_clock_or_standard := f1,
             local_or_universal_time := f2 }) :=
  claim_C3 consume_32bit_timestamps ⟨bufC3, 0⟩ innerC3 ⟨bufC3, 56⟩ [] 500
    (by decide) (by decide) (by decide) (by decide) (by decide) (by decide)

theorem readPadded_full (n : Nat) (buf : List Nat) (pos : Nat)
    (h : pos + n ≤ buf.length) :
    readPadded n ⟨buf, pos⟩ = ((buf.drop pos).take n, ⟨buf, pos + n⟩) := by
  simp only [readPadded]
  have hmin : min n (buf.length - pos) = n := by omega
  rw [hmin]
  simp

theorem readU32_at (buf : List Nat) (pos : Nat) (h : pos + 4 ≤ buf.length) :
    readU32 ⟨buf, pos⟩ = .ok (beNat ((buf.drop pos).take 4), ⟨buf, pos + 4⟩) := by
  simp [readU32, readBytesExact, h]

/-- Claim C5 counterexample: a well-formed fixed-offset body whose first 4
bytes are `XXXX` (not the `TZif` tag) is loaded successfully — the magic
mismatch is silently accepted rather than reported as an error. -/
theorem claim_C5_counterexample :
    bufC5.take 4 ≠ [84, 90, 105, 102] ∧ exceptIsOk (zoneInfoNew bufC5) = true := by
  decide

/-- Claim C5 amended: loading performs no magic validation at all.  For any
buffer holding at least the 44 header bytes whose first 4 bytes are valid
UTF-8 — whatever those bytes are — the header decode succeeds, storing the
magic verbatim and never comparing it with `TZif`; a well-formed body with a
wrong magic is therefore silently accepted (see the counterexample), and a
magic that is not valid UTF-8 panics instead of returning a recoverable
error. -/
theorem claim_C5 (buf : List Nat) (h44 : 44 ≤ buf.length)
    (hutf : isValidUtf8 (buf.take 4) = true) :
    tzHeadNew ⟨buf, 0⟩ = .ok
      ({ tzh_magic := buf.take 4, tzh_version := buf.getD 4 0,
         tzh_ttigmtcnt := beNat ((buf.drop 20).take 4),
         tzh_ttisstdcnt := beNat ((buf.drop 24).take 4),
         tzh_leapcnt := beNat ((buf.drop 28).take 4),
         tzh_timecnt := beNat ((buf.drop 32).take 4),
         tzh_typecnt := beNat ((buf.drop 36).take 4),
         tzh_charcnt := beNat ((buf.drop 40).take 4) }, ⟨buf, 44⟩) := by
  simp only [tzHeadNew, readPadded_full 4 buf 0 (by omega), List.drop_zero]
  simp only [readU8]
  rw [if_pos (show (0 : Nat) + 4 < buf.length by omega)]
  simp only [readU32_at buf 20 (by omega), readU32_at buf 24 (by omega),
             readU32_at buf 28 (by omega), readU32_at buf 32 (by omega),
             readU32_at buf 36 (by omega), readU32_at buf 40 (by omega)]
  rw [if_pos hutf]

/-- Claim C5 witness: the 44-byte header `bufC5h` with magic `XXXX` decodes
successfully and stores that magic verbatim. -/
theorem claim_C5_witness :
    tzHeadNew ⟨bufC5h, 0⟩ = .ok
      ({ tzh_magic := bufC5h.take 4, tzh_version := bufC5h.getD 4 0,
         tzh_ttigmtcnt := beNat ((bufC5h.drop 20).take 4),
         tzh_ttisstdcnt := beNat ((bufC5h.drop 24).take 4),
         tzh_leapcnt := beNat ((bufC5h.drop 28).take 4),
         tzh_timecnt := beNat ((bufC5h.drop 32).take 4),
         tzh_typecnt := beNat ((bufC5h.drop 36).take 4),
         tzh_charcnt := beNat ((bufC5h.drop 40).take 4) }, ⟨bufC5h, 44⟩) :=
  claim_C5 bufC5h (by decide) (by decide)

/-- Claim C6 counterexample: the buffer `bufC6` declares one local time
type but stores transition-type index 5; parsing succeeds and returns that
out-of-range index, so not every stored index is below the local-time-type
count. -/
theorem claim_C6_counterexample :
    read_zone_info consume_32bit_timestamps ⟨bufC6, 0⟩ = .ok (innerC6, ⟨bufC6, 56⟩) ∧
    innerC6.transision_types = [5] ∧
    innerC6.header.tzh_typecnt = 1 ∧
    ¬ (5 : Nat) < innerC6.header.tzh_typecnt := by decide

/-- Claim C6 amended: decoding stores the transition-type index bytes
without any bound check against the local-time-type count, so a
successfully parsed ZoneInfo can hold an index that is not a valid index
into the local-time-type table — as `bufC6` shows — and `get_transitions`
on such a ZoneInfo panics when it resolves the index. -/
theorem claim_C6 :
    read_zone_info consume_32bit_timestamps ⟨bufC6, 0⟩ = .ok (innerC6, ⟨bufC6, 56⟩) ∧
    innerC6.transision_types = [5] ∧
    innerC6.local_times.length = 1 ∧
    get_transitions ⟨innerC6, []⟩ = .error .crash := by decide

/-- Claim C7 counterexample: `bufC7` declares a 4-byte abbreviation pool
but ends after a single pool byte; the local-time-type pass does not fail
with a truncation error — the short pool read zero-fills and the parse
succeeds, producing the partial abbreviation read from the padded pool. -/
theorem claim_C7_counterexample :
    bufC7.length < 50 + 4 ∧
    read_zone_info consume_32bit_timestamps ⟨bufC7, 0⟩ = .ok (innerC7, ⟨bufC7, 51⟩) ∧
    innerC7.local_times = [{ ut_offset := 3600, isdst := false, abbreviation := [65] }] := by
  decide

/-- Claim C7 amended: the five integer-reading passes (transition times at
either width, type indices, leap-second corrections at either width, and
both flag passes) fail with a truncation (EOF) error whenever the buffer
lacks the bytes their counts require, and the local-time-type pass fails
with a truncation error when its 6-byte records are truncated — but the
abbreviation byte pool is read with a plain `read` that zero-fills missing
bytes, so once the records are present the pass never reports a truncation
error for a truncated pool. -/
theorem claim_C7 :
    (∀ (n : Nat) (c : Cursor), c.buf.length < c.pos + 4 * n + 4 →
      decode_transition_times consume_32bit_timestamps (n + 1) c = .error .eof) ∧
    (∀ (n : Nat) (c : Cursor), c.buf.length < c.pos + 8 * n + 8 →
      decode_transition_times consume_64bit_timestamps (n + 1) c = .error .eof) ∧
    (∀ (n : Nat) (c : Cursor), c.buf.length < c.pos + n + 1 →
      decode_transition_types (n + 1) c = .error .eof) ∧
    (∀ (n k : Nat) (c : Cursor), c.buf.length < c.pos + 6 * n + 6 →
      decode_local_time_data (n + 1) k c = .error .eof) ∧
    (∀ (n : Nat) (c : Cursor), c.buf.length < c.pos + 8 * n + 8 →
      decode_leap_second_corrections consume_32bit_timestamps (n + 1) c = .error .eof) ∧
    (∀ (n : Nat) (c : Cursor), c.buf.length < c.pos + 12 * n + 12 →
      decode_leap_second_corrections consume_64bit_timestamps (n + 1) c = .error .eof) ∧
    (∀ (n : Nat) (c : Cursor), c.buf.length < c.pos + n + 1 →
      decode_transition_flags1 (n + 1) c = .error .eof) ∧
    (∀ (n : Nat) (c : Cursor), c.buf.length < c.pos + n + 1 →
      decode_transition_flags2 (n + 1) c = .error .eof) ∧
    (∀ (n k : Nat) (c : Cursor), c.pos + 6 * n ≤ c.buf.length →
      decode_local_time_data n k c ≠ .error .eof) := by
  refine ⟨?_, ?_, decode_transition_types_eof, decode_local_time_data_eof, ?_, ?_,
          decode_transition_flags1_eof, decode_transition_flags2_eof,
          decode_local_time_data_ne_eof⟩
  · intro n c h
    exact decode_transition_times_eof consume32_readsW n c h
  · intro n c h
    exact decode_transition_times_eof consume64_readsW n c h
  · intro n c h
    exact decode_leap_second_corrections_eof consume32_readsW n c (by omega)
  · intro n c h
    exact decode_leap_second_corrections_eof consume64_readsW n c (by omega)

/-- Claim C7 witness: each truncation statement evaluated on a concrete
empty buffer, and the pool statement at a zero-record type table. -/
theorem claim_C7_witness :
    decode_transition_times consume_32bit_timestamps 1 ⟨[], 0⟩ = .error .eof ∧
    decode_transition_times consume_64bit_timestamps 1 ⟨[], 0⟩ = .error .eof ∧
    decode_transition_types 1 ⟨[], 0⟩ = .error .eof ∧
    decode_local_time_data 1 3 ⟨[], 0⟩ = .error .eof ∧
    decode_leap_second_corrections consume_32bit_timestamps 1 ⟨[], 0⟩ = .error .eof ∧
    decode_leap_second_corrections consume_64bit_timestamps 1 ⟨[], 0⟩ = .error .eof ∧
    decode_transition_flags1 1 ⟨[], 0⟩ = .error .eof ∧
    decode_transition_flags2 1 ⟨[], 0⟩ = .error .eof ∧
    decode_local_time_data 0 7 ⟨[], 0⟩ ≠ .error .eof := by
  obtain ⟨h1, h2, h3, h4, h5, h6, h7, h8, h9⟩ := claim_C7
  exact ⟨h1 0 ⟨[], 0⟩ (by decide), h2 0 ⟨[], 0⟩ (by decide), h3 0 ⟨[], 0⟩ (by decide),
         h4 0 3 ⟨[], 0⟩ (by decide), h5 0 ⟨[], 0⟩ (by decide), h6 0 ⟨[], 0⟩ (by decide),
         h7 0 ⟨[], 0⟩ (by decide), h8 0 ⟨[], 0⟩ (by decide), h9 0 7 ⟨[], 0⟩ (by decide)⟩
